import Mathlib

/-!
# Delayed notifier: a shallow embedding of the core and its contract

The development embeds the delay-queue core of the notifier service:

* `internal/models/models.go`   : the notification record,
* `internal/queue/rabbitmq_manager.go` : `calculateDelay`, `PublishDelayed`, `PublishImmediate`,
* `internal/storage/redis.go`   : the Redis store with its due-index,
* `internal/worker/worker.go`   : `Processor.handleMessage`, `Processor.Stop`,
* `internal/worker/scheduler.go`: `Scheduler.checkPendingNotifications`, `Scheduler.Stop`.

Conventions.  A `time.Time` is an `Int`, its number of nanoseconds since the Unix epoch, and a
`time.Duration` is an `Int`, a number of nanoseconds (64-bit in the source; the arithmetic
that can leave that range saturates or wraps around explicitly).  The `int` fields `Attempts`
and `MaxRetries` are `Int`: the budget `MaxRetries - Attempts` of the inner loop wraps around
in 64 bits as in the source, while the increment of `Attempts`, a counter of deliveries that
starts at 0, is taken below the 64-bit limit.  Each read of `time.Now()` is an explicit
argument.
Redis is explicit state (string keys, one set, one sorted set) whose commands always succeed.
JSON encoding of a record followed by decoding is taken to be the identity.  The broker
publisher and the delivery channel are external collaborators and are arguments.
-/

namespace Notifier

/-! ## Time -/

/-- One second, `time.Second`. -/
def Second : Int := 1000000000

/-- One hour, `time.Hour`. -/
def Hour : Int := 3600 * Second

/-- Largest value of a `time.Duration`. -/
def maxDuration : Int := 2 ^ 63 - 1

/-- Smallest value of a `time.Duration`. -/
def minDuration : Int := -(2 ^ 63)

/-- The method `t.Before(u)`. -/
def Before (t u : Int) : Bool := decide (t < u)

/-- The method `t.After(u)`. -/
def After (t u : Int) : Bool := decide (t > u)

/-- The method `t.Add(d)`. -/
def Add (t : Int) (d : Int) : Int := t + d

/-- The method `t.Sub(u)`: the difference, saturated to the range of a `Duration`. -/
def Sub (t u : Int) : Int :=
  if t - u > maxDuration then maxDuration
  else if t - u < minDuration then minDuration
  else t - u

/-- The method `t.Unix()`: whole seconds since the epoch, rounded down. -/
def Unix (t : Int) : Int := t / Second

/-- Two's-complement wrap-around of a 64-bit signed product or sum. -/
def wrap64 (x : Int) : Int := (x + 2 ^ 63) % 2 ^ 64 - 2 ^ 63

/-! ## internal/models -/

/-- The type `models.NotificationStatus`. -/
inductive NotificationStatus where
  | StatusPending
  | StatusSent
  | StatusFailed
  | StatusCancelled
  | StatusRetrying
  deriving DecidableEq, Repr

open NotificationStatus

/-- The type `models.Notification`. -/
structure Notification where
  ID : String
  Message : String
  SendAt : Int
  Status : NotificationStatus
  CreatedAt : Int
  UpdatedAt : Int
  Attempts : Int
  MaxRetries : Int
  NextRetry : Option Int
  deriving DecidableEq, Repr

/-- Errors returned by the embedded functions. -/
inductive Error where
  | unmarshal
  | notReady
  | notFound
  | publishFailed
  | sendError
  deriving DecidableEq, Repr

/-! ## github.com/wb-go/wbf/retry -/

/-- The type `retry.Strategy`; the backoff factor only scales the sleeps. -/
structure Strategy where
  Attempts : Int
  Delay : Int
  Backoff : Int
  deriving DecidableEq, Repr

/-- Modelled from the spec: the loop of `retry.DoContext` (package
`github.com/wb-go/wbf/retry`, which is not part of the repository).  It calls `fn` at most
`fuel` times, stops with no error at the first call that returns none, and otherwise returns
the error of the last call; `last` is the error so far. -/
def retryLoop {σ : Type} (fn : σ → σ × Option Error) : Nat → σ → Option Error → σ × Option Error
  | 0, s, last => (s, last)
  | k + 1, s, _ =>
    match fn s with
    | (s1, none) => (s1, none)
    | (s1, some e) => retryLoop fn k s1 (some e)

/-- Modelled from the spec: `retry.DoContext(ctx, strategy, fn)` with the sleeps left out and a
context that is never cancelled: up to `strategy.Attempts` calls of `fn`, no error on the first
success, the last error when every call failed, and no call and no error when
`strategy.Attempts <= 0`.  The state `σ` is what `fn` captures and mutates. -/
def DoContext {σ : Type} (strategy : Strategy) (fn : σ → σ × Option Error) (s : σ) :
    σ × Option Error :=
  retryLoop fn strategy.Attempts.toNat s none

/-! ## internal/queue -/

/-- One call of `publisher.Publish(ctx, body, routingKey, opts...)`: the record that was
marshalled into the body, the routing key, and the argument of `rabbitmq.WithExpiration`
when that option is passed. -/
structure Publication where
  body : Notification
  routingKey : String
  expiration : Option Int
  deriving DecidableEq, Repr

/-- What a call of the queue manager did: the error it returned and the `Publish` calls it
issued, in order. -/
structure PublishResult where
  err : Option Error
  calls : List Publication
  deriving DecidableEq, Repr

/-- The function `calculateDelay`, with the reading `now` of the clock. -/
def calculateDelay (now : Int) (sendAt : Int) : Int :=
  if Before sendAt now then 0 else Sub sendAt now

/-- The method `Manager.PublishDelayed`; `publish p` tells whether the publisher accepts `p`. -/
def PublishDelayed (publish : Publication → Bool) (now : Int) (notification : Notification) :
    PublishResult :=
  let delay := calculateDelay now notification.SendAt
  if delay > 60 * Second then
    { err := none, calls := [] }
  else
    let p : Publication :=
      if delay ≤ 0 then
        { body := notification, routingKey := "ready", expiration := none }
      else
        { body := notification, routingKey := "delayed", expiration := some delay }
    if publish p then { err := none, calls := [p] }
    else { err := some Error.publishFailed, calls := [p] }

/-- The method `Manager.PublishImmediate`. -/
def PublishImmediate (publish : Publication → Bool) (notification : Notification) :
    PublishResult :=
  let p : Publication := { body := notification, routingKey := "ready", expiration := none }
  if publish p then { err := none, calls := [p] }
  else { err := some Error.publishFailed, calls := [p] }

/-! ## internal/storage: Redis as explicit state -/

/-- The value stored under key `k` in a list of key/value pairs (first match). -/
def kvGet {β : Type} (k : String) : List (String × β) → Option β
  | [] => none
  | (k1, v) :: rest => if k1 = k then some v else kvGet k rest

/-- Removal of every pair with key `k`. -/
def kvDel {β : Type} (k : String) : List (String × β) → List (String × β)
  | [] => []
  | (k1, v) :: rest => if k1 = k then kvDel k rest else (k1, v) :: kvDel k rest

/-- Binding of `k` to `v`, replacing an earlier binding. -/
def kvSet {β : Type} (k : String) (v : β) (l : List (String × β)) : List (String × β) :=
  (k, v) :: kvDel k l

/-- The Redis database the store uses: the string keys `notification:<id>` (indexed here by
the id, holding the decoded record), the set `notifications:all`, and the sorted set
`notifications:pending` (member and score; scores are whole numbers here, as
`float64(sendTime.Unix())` is). -/
structure RedisState where
  records : List (String × Notification)
  all : List String
  pending : List (String × Int)
  deriving DecidableEq, Repr

/-- The empty database. -/
def RedisState.empty : RedisState := { records := [], all := [], pending := [] }

/-- Redis `SET notification:<id> data`. -/
def RedisState.Set (s : RedisState) (id : String) (n : Notification) : RedisState :=
  { s with records := kvSet id n s.records }

/-- Redis `DEL notification:<id>`. -/
def RedisState.Del (s : RedisState) (id : String) : RedisState :=
  { s with records := kvDel id s.records }

/-- Redis `SADD notifications:all id`. -/
def RedisState.SAdd (s : RedisState) (id : String) : RedisState :=
  { s with all := if id ∈ s.all then s.all else id :: s.all }

/-- Redis `SREM notifications:all id`. -/
def RedisState.SRem (s : RedisState) (id : String) : RedisState :=
  { s with all := s.all.filter (fun x => decide (x ≠ id)) }

/-- Redis `ZADD notifications:pending score id`. -/
def RedisState.ZAdd (s : RedisState) (score : Int) (id : String) : RedisState :=
  { s with pending := kvSet id score s.pending }

/-- Redis `ZREM notifications:pending id`. -/
def RedisState.ZRem (s : RedisState) (id : String) : RedisState :=
  { s with pending := kvDel id s.pending }

/-- Redis `ZSCORE notifications:pending id`: the index key of `id`, if it is indexed. -/
def RedisState.ZScore (s : RedisState) (id : String) : Option Int :=
  kvGet id s.pending

/-- The timestamp both `Create` and `Update` index a record by: the next-retry time of a
retrying record that has one, the send time otherwise. -/
def sendTime (notification : Notification) : Int :=
  match notification.Status, notification.NextRetry with
  | StatusRetrying, some t => t
  | _, _ => notification.SendAt

/-- The test `Status == StatusPending || Status == StatusRetrying`. -/
def isDue (notification : Notification) : Bool :=
  decide (notification.Status = StatusPending) || decide (notification.Status = StatusRetrying)

/-- The method `RedisStorage.Create`. -/
def Create (notification : Notification) (s : RedisState) : RedisState :=
  let s1 := s.Set notification.ID notification
  let s2 := s1.SAdd notification.ID
  if isDue notification then
    s2.ZAdd (Unix (sendTime notification)) notification.ID
  else s2

/-- The method `RedisStorage.GetByID`: none is the answer `nil, nil`. -/
def GetByID (s : RedisState) (id : String) : Option Notification :=
  kvGet id s.records

/-- The method `RedisStorage.Update`, with the reading `now` of the clock that stamps
`UpdatedAt`; the error is `notification not found`. -/
def Update (now : Int) (id : String) (updateFn : Notification → Notification)
    (s : RedisState) : Option Error × RedisState :=
  match GetByID s id with
  | none => (some Error.notFound, s)
  | some notification =>
    let oldStatus := notification.Status
    let updated := { updateFn notification with UpdatedAt := now }
    let s1 := s.Set id updated
    if oldStatus ≠ updated.Status then
      let s2 := s1.ZRem id
      if isDue updated then
        (none, s2.ZAdd (Unix (sendTime updated)) id)
      else (none, s2)
    else (none, s1)

/-- The method `RedisStorage.Delete`. -/
def Delete (id : String) (s : RedisState) : RedisState :=
  ((s.Del id).SRem id).ZRem id

/-- The method `RedisStorage.GetAll`. -/
def GetAll (s : RedisState) : List Notification :=
  s.all.filterMap (fun id => GetByID s id)

/-- The order of a sorted set: by increasing score, and by increasing member among equal
scores. -/
def zsetLE (x y : String × Int) : Bool :=
  decide (x.2 < y.2) || (decide (x.2 = y.2) && !decide (y.1 < x.1))

/-- Insertion of an entry into a list of entries that is in sorted-set order. -/
def zsetInsert (x : String × Int) : List (String × Int) → List (String × Int)
  | [] => [x]
  | y :: rest => if zsetLE x y then x :: y :: rest else y :: zsetInsert x rest

/-- The entries of a list in sorted-set order. -/
def zsetSort : List (String × Int) → List (String × Int)
  | [] => []
  | x :: rest => zsetInsert x (zsetSort rest)

/-- Redis `ZRANGEBYSCORE notifications:pending min max`: the members whose score lies in
`[min, max]`, in sorted-set order. -/
def RedisState.ZRangeByScore (s : RedisState) (min max : Int) : List String :=
  (zsetSort (s.pending.filter (fun p => decide (min ≤ p.2) && decide (p.2 ≤ max)))).map
    (fun p => p.1)

/-- The method `RedisStorage.GetPendingNotifications`, with the reading `now` of the clock:
the range queried is from `"0"` to `now.Unix()`. -/
def GetPendingNotifications (now : Int) (s : RedisState) : List Notification :=
  let nowSec := Unix now
  (s.ZRangeByScore 0 nowSec).filterMap (fun id => GetByID s id)

/-- A sorted set holds each member once: the representation invariant of
`notifications:pending`. -/
def RedisState.UniqueMembers (s : RedisState) : Prop :=
  (s.pending.map (fun p => p.1)).Nodup

/-- A call on the store. -/
inductive StoreOp where
  | create (notification : Notification)
  | update (now : Int) (id : String) (updateFn : Notification → Notification)
  | delete (id : String)

/-- The effect of one call on the database. -/
def StoreOp.apply (op : StoreOp) (s : RedisState) : RedisState :=
  match op with
  | StoreOp.create n => Create n s
  | StoreOp.update now id f => (Update now id f s).2
  | StoreOp.delete id => Delete id s

/-- The effect of a sequence of calls, first call first. -/
def runOps (ops : List StoreOp) (s : RedisState) : RedisState :=
  ops.foldl (fun acc op => op.apply acc) s

/-- The index key a record ought to have: the whole Unix seconds of its index timestamp when
its status is pending or retrying, none otherwise. -/
def dueKey (notification : Notification) : Option Int :=
  if isDue notification then some (Unix (sendTime notification)) else none

/-- A creation does not reuse an id that is stored (ids are unique); other calls are free. -/
def StoreOp.fresh (op : StoreOp) (s : RedisState) : Prop :=
  match op with
  | StoreOp.create n => GetByID s n.ID = none
  | _ => True

/-- An update does not change the index timestamp of a pending or retrying record, in whole
seconds, while leaving its status unchanged; other calls are free. -/
def StoreOp.stable (op : StoreOp) (s : RedisState) : Prop :=
  match op with
  | StoreOp.update _ id f =>
    ∀ n, GetByID s id = some n → isDue n = true → (f n).Status = n.Status →
      Unix (sendTime (f n)) = Unix (sendTime n)
  | _ => True

/-- Every call of the sequence satisfies `StoreOp.fresh` in the state it runs in. -/
def FreshCreates : List StoreOp → RedisState → Prop
  | [], _ => True
  | op :: rest, s => op.fresh s ∧ FreshCreates rest (op.apply s)

/-- Every call of the sequence satisfies `StoreOp.stable` in the state it runs in. -/
def KeyStable : List StoreOp → RedisState → Prop
  | [], _ => True
  | op :: rest, s => op.stable s ∧ KeyStable rest (op.apply s)

/-! ## internal/worker: the processor -/

/-- The delivery channel behind `Processor.sendNotification`: `send k n` is the outcome of
the call number `k` (from 0) of a delivery cycle, for the record `n`. -/
abbrev Channel := Nat → Notification → Bool

/-- The method `Processor.sendNotification` of the source, a stand-in for the external
channel: it succeeds exactly for records with fewer than two attempts. -/
def sendNotification : Channel :=
  fun _ notification => decide (notification.Attempts < 2)

/-- The four readings of `time.Now()` in one run of `handleMessage`: the readiness check,
the stamp of the in-flight update, the backoff computation, the stamp of the final update. -/
structure Clock where
  atCheck : Int
  atMark : Int
  atBackoff : Int
  atStamp : Int
  deriving DecidableEq, Repr

/-- What the retry closure of `handleMessage` captures: the variable `success`, and the
number of calls of the delivery channel so far. -/
structure SendState where
  success : Bool
  calls : Nat
  deriving DecidableEq, Repr

/-- The closure passed to `retry.DoContext` in `handleMessage`. -/
def sendClosure (send : Channel) (storedNotification : Notification) (c : SendState) :
    SendState × Option Error :=
  let success := send c.calls storedNotification
  let c1 : SendState := { success := success, calls := c.calls + 1 }
  if !success then (c1, some Error.sendError) else (c1, none)

/-- The expression `time.Duration(math.Pow(2, float64(attempts))) * time.Second`: a negative
exponent gives a fraction, truncated to 0; up to 62 the power is exact and the product wraps
around in 64 bits; from 63 on the conversion is out of range and yields the smallest 64-bit
integer (the behaviour on amd64). -/
def backoffDelay (attempts : Int) : Int :=
  if attempts < 0 then 0
  else if attempts ≤ 62 then wrap64 (2 ^ attempts.toNat * Second)
  else wrap64 (minDuration * Second)

/-- The mutator of the final `Update` of `handleMessage`, for the values of `success` and
`retryErr` it captures and the reading `now` of the clock: the mutated record, and the
records whose pointer the goroutines it starts hand to `PublishDelayed` (as they are when the
mutator returns).  The increment `n.Attempts++` is taken without wrap-around: the counter
counts deliveries from 0 and does not reach the largest 64-bit integer. -/
def finalize (success : Bool) (retryErr : Option Error) (now : Int) (n : Notification) :
    Notification × List Notification :=
  let n1 := { n with Attempts := n.Attempts + 1 }
  if success then
    ({ n1 with Status := StatusSent, NextRetry := none }, [])
  else if n1.Attempts ≥ n1.MaxRetries ∨ retryErr ≠ none then
    ({ n1 with Status := StatusFailed, NextRetry := none }, [])
  else
    let delay := backoffDelay n1.Attempts
    let nextRetry := Add now delay
    let n2 := { n1 with NextRetry := some nextRetry, Status := StatusRetrying, SendAt := nextRetry }
    (n2, [n2])

/-- The inner retry loop of `handleMessage`: the strategy built from the stored record, and
`retry.DoContext` run on the closure with `success` initially false.  The budget
`MaxRetries - Attempts` is a subtraction of `int`s and wraps around in 64 bits.  The result
is the final value of what the closure captures and the `retryErr` that `DoContext`
returns. -/
def innerLoop (send : Channel) (storedNotification : Notification) : SendState × Option Error :=
  let retryStrategy : Strategy :=
    { Attempts := wrap64 (storedNotification.MaxRetries - storedNotification.Attempts),
      Delay := 1 * Second, Backoff := 2 }
  DoContext retryStrategy (sendClosure send storedNotification) { success := false, calls := 0 }

/-- The record in the store when the final update of `handleMessage` reads it: the record
read first, marked `StatusRetrying` by the in-flight update when it has attempts. -/
def inFlight (clk : Clock) (storedNotification : Notification) : Notification :=
  if storedNotification.Attempts > 0 then
    { storedNotification with Status := StatusRetrying, UpdatedAt := clk.atMark }
  else storedNotification

/-- The outcome of one run of `handleMessage`: the returned error (none acknowledges the
delivery, an error requeues it), the database, the number of calls made on the store, the
number of calls of the delivery channel, and the records handed to `PublishDelayed`. -/
structure HandleResult where
  err : Option Error
  store : RedisState
  storeCalls : Nat
  deliveryAttempts : Nat
  scheduled : List Notification
  deriving DecidableEq, Repr

/-- The method `Processor.handleMessage` over the Redis store.  The argument `delivery` is the
result of decoding the body (none when it is malformed).  The goroutine of the final mutator
receives the pointer to the record that `Update` reads, mutates and then stamps with
`UpdatedAt`: the records handed to `PublishDelayed` are those the mutator produces, with that
stamp. -/
def handleMessage (send : Channel) (clk : Clock) (delivery : Option Notification)
    (st : RedisState) : HandleResult :=
  match delivery with
  | none =>
    { err := some Error.unmarshal, store := st, storeCalls := 0, deliveryAttempts := 0,
      scheduled := [] }
  | some notification =>
    if After notification.SendAt clk.atCheck then
      { err := some Error.notReady, store := st, storeCalls := 0, deliveryAttempts := 0,
        scheduled := [] }
    else
      match GetByID st notification.ID with
      | none =>
        { err := none, store := st, storeCalls := 1, deliveryAttempts := 0, scheduled := [] }
      | some storedNotification =>
        if storedNotification.Status = StatusCancelled then
          { err := none, store := st, storeCalls := 1, deliveryAttempts := 0, scheduled := [] }
        else
          let marked : RedisState × Nat :=
            if storedNotification.Attempts > 0 then
              ((Update clk.atMark notification.ID
                  (fun n => { n with Status := StatusRetrying }) st).2, 2)
            else (st, 1)
          let looped := innerLoop send storedNotification
          let success := looped.1.success
          let retryErr := looped.2
          let scheduled : List Notification :=
            match GetByID marked.1 notification.ID with
            | none => []
            | some n =>
              (finalize success retryErr clk.atBackoff n).2.map
                (fun r => { r with UpdatedAt := clk.atStamp })
          let final := Update clk.atStamp notification.ID
            (fun n => (finalize success retryErr clk.atBackoff n).1) marked.1
          { err := final.1, store := final.2, storeCalls := marked.2 + 1,
            deliveryAttempts := looped.1.calls, scheduled := scheduled }

/-- One delivery from the ready queue: the channel and the clock readings of the run that
handles it, and the decoded body. -/
structure Cycle where
  send : Channel
  clk : Clock
  delivery : Option Notification

/-- Consecutive runs of `handleMessage`, one per delivery, first delivery first. -/
def runCycles (cycles : List Cycle) (st : RedisState) : RedisState :=
  cycles.foldl (fun s c => (handleMessage c.send c.clk c.delivery s).store) st

/-- A channel of type `chan struct{}`, as far as `close` is concerned. -/
inductive ChanState where
  | opened
  | closed
  deriving DecidableEq, Repr

/-- The run-time fault of closing a closed channel. -/
inductive Panic where
  | closeOfClosedChannel
  deriving DecidableEq, Repr

/-- The builtin `close(ch)`. -/
def closeChan : ChanState → Except Panic ChanState
  | ChanState.opened => Except.ok ChanState.closed
  | ChanState.closed => Except.error Panic.closeOfClosedChannel

/-- The type `Processor`, as far as `Stop` is concerned. -/
structure Processor where
  stopChan : ChanState
  deriving DecidableEq, Repr

/-- The function `NewProcessor`. -/
def NewProcessor : Processor := { stopChan := ChanState.opened }

/-- The method `Processor.Stop`. -/
def Processor.Stop (p : Processor) : Except Panic Processor :=
  match closeChan p.stopChan with
  | Except.ok c => Except.ok { p with stopChan := c }
  | Except.error e => Except.error e

/-! ## internal/worker: the scheduler -/

/-- The type `Scheduler`, as far as `Stop` is concerned. -/
structure Scheduler where
  stopChan : ChanState
  deriving DecidableEq, Repr

/-- The function `NewScheduler`. -/
def NewScheduler : Scheduler := { stopChan := ChanState.opened }

/-- The method `Scheduler.Stop`. -/
def Scheduler.Stop (s : Scheduler) : Except Panic Scheduler :=
  match closeChan s.stopChan with
  | Except.ok c => Except.ok { s with stopChan := c }
  | Except.error e => Except.error e

/-- The broker seen from the scheduler: `accept k p` tells whether the publisher accepts the
publication `p` at try number `k` (from 0) of the retry that encloses it. -/
abbrev Broker := Nat → Publication → Bool

/-- The readings of `time.Now()` in one tick: `now` for the loop, and for the update of each
id the one inside the mutator and the one that stamps `UpdatedAt`. -/
structure TickClock where
  now : Int
  inMutator : String → Int
  atStamp : String → Int

/-- The retry strategy of `checkPendingNotifications`. -/
def tickStrategy : Strategy := { Attempts := 3, Delay := 100 * 1000000, Backoff := 2 }

/-- What the publishing closure of a tick captures: the number of tries so far, and the
`Publish` calls issued so far. -/
structure PublishState where
  tries : Nat
  calls : List Publication
  deriving DecidableEq, Repr

/-- The closure around `PublishImmediate` passed to `retry.DoContext` in a tick. -/
def publishClosure (accept : Broker) (notification : Notification) (c : PublishState) :
    PublishState × Option Error :=
  let r := PublishImmediate (accept c.tries) notification
  ({ tries := c.tries + 1, calls := c.calls ++ r.calls }, r.err)

/-- The outcome of a tick: the database and the `Publish` calls issued, in order. -/
structure TickResult where
  store : RedisState
  published : List Publication
  deriving DecidableEq, Repr

/-- The test a tick applies to a record: pending, send time before `now`, and send time
after `now` minus 24 hours. -/
def qualifies (now : Int) (notification : Notification) : Bool :=
  decide (notification.Status = StatusPending) &&
    Before notification.SendAt now &&
    After notification.SendAt (Add now (-24 * Hour))

/-- The body of the loop of `checkPendingNotifications` for one record of the snapshot. -/
def tickStep (accept : Broker) (clk : TickClock) (acc : TickResult)
    (notification : Notification) : TickResult :=
  if qualifies clk.now notification then
    let r := DoContext tickStrategy (publishClosure accept notification)
      { tries := 0, calls := [] }
    match r.2 with
    | some _ => { acc with published := acc.published ++ r.1.calls }
    | none =>
      { store := (Update (clk.atStamp notification.ID) notification.ID
          (fun n => { n with Status := StatusRetrying,
                             UpdatedAt := clk.inMutator notification.ID }) acc.store).2,
        published := acc.published ++ r.1.calls }
  else acc

/-- The method `Scheduler.checkPendingNotifications`. -/
def checkPendingNotifications (accept : Broker) (clk : TickClock) (st : RedisState) :
    TickResult :=
  let got := DoContext tickStrategy
    (fun (_ : List Notification) => (GetAll st, (none : Option Error))) []
  match got.2 with
  | some _ => { store := st, published := [] }
  | none => got.1.foldl (tickStep accept clk) { store := st, published := [] }

/-- The publication `PublishImmediate` issues for a record. -/
def readyPublication (notification : Notification) : Publication :=
  { body := notification, routingKey := "ready", expiration := none }

/-- Whether the retried `PublishImmediate` of a tick succeeds for a record: the broker
accepts one of its three tries. -/
def publishSucceeds (accept : Broker) (notification : Notification) : Bool :=
  accept 0 (readyPublication notification) || accept 1 (readyPublication notification) ||
    accept 2 (readyPublication notification)

/-- Consistency of the database, as `Create` and `Delete` keep it: every record is stored
under its own id, and that id is a member of `notifications:all`. -/
def RedisState.Consistent (s : RedisState) : Prop :=
  ∀ id n, GetByID s id = some n → n.ID = id ∧ id ∈ s.all

/-- A call that does not alter the `ID` field of a record: every creation and deletion, and
an update whose mutator keeps the field (as all mutators of the repository do). -/
def StoreOp.keepsID (op : StoreOp) : Prop :=
  match op with
  | StoreOp.update _ _ f => ∀ n, (f n).ID = n.ID
  | _ => True

/-- The counters of every stored record are those of a record created by the service and
counted up by deliveries: `Attempts` is not negative and `MaxRetries` is a 64-bit integer. -/
def RedisState.Counted (s : RedisState) : Prop :=
  ∀ id n, GetByID s id = some n → 0 ≤ n.Attempts ∧ n.MaxRetries < 2 ^ 63

/-- The status stored for an id, if the id has a record. -/
def statusOf (s : RedisState) (id : String) : Option NotificationStatus :=
  (GetByID s id).map (fun n => n.Status)

/-! ## Sample data -/

/-- A fresh record: pending, no attempts, three retries, due 30 seconds after the epoch. -/
def sampleRecord : Notification :=
  { ID := "n1", Message := "hello", SendAt := 30 * Second, Status := StatusPending,
    CreatedAt := 0, UpdatedAt := 0, Attempts := 0, MaxRetries := 3, NextRetry := none }

/-- The database after the creation of the sample record. -/
def sampleStore : RedisState := Create sampleRecord RedisState.empty

/-- Clock readings shortly after the sample record is due. -/
def sampleClock : Clock :=
  { atCheck := 40 * Second, atMark := 41 * Second, atBackoff := 42 * Second,
    atStamp := 43 * Second }

/-- A channel on which every attempt fails. -/
def failingChannel : Channel := fun _ _ => false

/-- Clock readings of a tick at which the sample record is overdue by exactly 24 hours. -/
def boundaryTick : TickClock :=
  { now := 30 * Second + 24 * Hour, inMutator := fun _ => 30 * Second + 24 * Hour,
    atStamp := fun _ => 30 * Second + 24 * Hour }

/-- Clock readings of a tick ten seconds after the sample record is due. -/
def sampleTick : TickClock :=
  { now := 40 * Second, inMutator := fun _ => 40 * Second, atStamp := fun _ => 40 * Second }

/-- Creation of the sample record, then an update that moves its send time to 90 seconds
and leaves its status as it is. -/
def staleKeyOps : List StoreOp :=
  [StoreOp.create sampleRecord,
   StoreOp.update (10 * Second) "n1" (fun n => { n with SendAt := 90 * Second })]

/-- Creation of the sample record, then an update that marks it retrying with a next retry
a little after 95 seconds. -/
def retryOps : List StoreOp :=
  [StoreOp.create sampleRecord,
   StoreOp.update (10 * Second) "n1"
     (fun n => { n with Status := StatusRetrying, NextRetry := some (95 * Second + 5) })]

/-- The database after the sample message has been delivered twice through the channel of
the source: the sample record is sent, with two attempts. -/
def twiceDelivered : RedisState :=
  runCycles (List.replicate 2
    { send := sendNotification, clk := sampleClock, delivery := some sampleRecord }) sampleStore

/-- The sample record with five retries, as a request with `max_retries` 5 creates it. -/
def fiveRetriesRecord : Notification := { sampleRecord with MaxRetries := 5 }

/-- The database after the record with five retries has been created and its message
delivered twice through the channel of the source: the record is sent, with two attempts and
three retries left. -/
def twiceDeliveredFive : RedisState :=
  runCycles (List.replicate 2
    { send := sendNotification, clk := sampleClock, delivery := some fiveRetriesRecord })
    (Create fiveRetriesRecord RedisState.empty)

/-- The sample record as a request with `max_retries` -9223372036854775808, the smallest
64-bit integer, creates it. -/
def overflowRecord : Notification := { sampleRecord with MaxRetries := -(2 ^ 63) }

/-- The record with the smallest `MaxRetries` after two deliveries: sent, two attempts. -/
def overflowSent : Notification :=
  { overflowRecord with Status := StatusSent, Attempts := 2, UpdatedAt := sampleClock.atStamp }

/-- The database after the record with the smallest `MaxRetries` has been created and its
message delivered twice through the channel of the source. -/
def overflowStore : RedisState :=
  runCycles (List.replicate 2
    { send := sendNotification, clk := sampleClock, delivery := some overflowRecord })
    (Create overflowRecord RedisState.empty)

/-- A broker that accepts every publication. -/
def acceptingBroker : Broker := fun _ _ => true

/-- A channel on which only the third attempt of a cycle succeeds. -/
def thirdTimeChannel : Channel := fun k _ => decide (k = 2)

/-! # Theorems -/

/-! ## Key/value lists -/

theorem kvGet_kvDel_self {β : Type} (k : String) (l : List (String × β)) :
    kvGet k (kvDel k l) = none := by
  induction l with
  | nil => rfl
  | cons hd tl ih =>
    obtain ⟨k1, v⟩ := hd
    by_cases h : k1 = k <;> simp [kvDel, kvGet, h, ih]

theorem kvGet_kvDel_other {β : Type} (k j : String) (hne : j ≠ k) (l : List (String × β)) :
    kvGet j (kvDel k l) = kvGet j l := by
  induction l with
  | nil => rfl
  | cons hd tl ih =>
    obtain ⟨k1, v⟩ := hd
    by_cases h : k1 = k
    · have hj : ¬ k1 = j := fun e => hne (e ▸ h)
      simp only [kvDel, kvGet, if_pos h, if_neg hj, ih]
    · by_cases hj : k1 = j
      · simp only [kvDel, kvGet, if_neg h, if_pos hj]
      · simp only [kvDel, kvGet, if_neg h, if_neg hj, ih]

theorem kvGet_kvSet_self {β : Type} (k : String) (v : β) (l : List (String × β)) :
    kvGet k (kvSet k v l) = some v := by
  simp [kvSet, kvGet]

theorem kvGet_kvSet_other {β : Type} (k j : String) (hne : j ≠ k) (v : β)
    (l : List (String × β)) : kvGet j (kvSet k v l) = kvGet j l := by
  have h : ¬ k = j := fun e => hne e.symm
  simp [kvSet, kvGet, h, kvGet_kvDel_other k j hne]

/-! ## The store -/

theorem GetByID_Update_self (now : Int) (id : String) (f : Notification → Notification)
    (s : RedisState) :
    GetByID (Update now id f s).2 id =
      (GetByID s id).map (fun n => { f n with UpdatedAt := now }) := by
  unfold Update
  cases hg : GetByID s id with
  | none => simp [hg]
  | some n =>
    simp only [Option.map_some']
    split_ifs <;>
      simp [GetByID, RedisState.Set, RedisState.ZRem, RedisState.ZAdd, kvGet_kvSet_self]

theorem GetByID_Update_other (now : Int) (id j : String) (hne : j ≠ id)
    (f : Notification → Notification) (s : RedisState) :
    GetByID (Update now id f s).2 j = GetByID s j := by
  unfold Update
  cases hg : GetByID s id with
  | none => simp
  | some n =>
    simp only
    split_ifs <;>
      simp [GetByID, RedisState.Set, RedisState.ZRem, RedisState.ZAdd,
        kvGet_kvSet_other id j hne]

theorem Update_err_of_found (now : Int) (id : String) (f : Notification → Notification)
    (s : RedisState) (n : Notification) (hg : GetByID s id = some n) :
    (Update now id f s).1 = none := by
  unfold Update
  simp only [hg]
  split_ifs <;> rfl

/-! ## The inner retry loop -/

theorem retryLoop_send_fail (send : Channel) (stored : Notification)
    (hfail : ∀ k, send k stored = false) (fuel : Nat) :
    ∀ (c : SendState) (last : Option Error),
      retryLoop (sendClosure send stored) (fuel + 1) c last =
        ({ success := false, calls := c.calls + fuel + 1 }, some Error.sendError) := by
  induction fuel with
  | zero =>
    intro c last
    simp [retryLoop, sendClosure, hfail]
  | succ k ih =>
    intro c last
    rw [retryLoop]
    simp only [sendClosure, hfail, Bool.not_false, if_true]
    rw [ih]
    simp [Nat.add_comm, Nat.add_left_comm]

theorem retryLoop_send_ok (send : Channel) (stored : Notification) (k : Nat) :
    ∀ (fuel : Nat) (c : SendState) (last : Option Error), k < fuel →
      (∀ j, j < k → send (c.calls + j) stored = false) →
      send (c.calls + k) stored = true →
      retryLoop (sendClosure send stored) fuel c last =
        ({ success := true, calls := c.calls + k + 1 }, none) := by
  induction k with
  | zero =>
    intro fuel c last hlt _ hok
    obtain ⟨f, rfl⟩ : ∃ f, fuel = f + 1 := ⟨fuel - 1, by omega⟩
    have hok0 : send c.calls stored = true := by simpa using hok
    simp [retryLoop, sendClosure, hok0]
  | succ k ih =>
    intro fuel c last hlt hfail hok
    obtain ⟨f, rfl⟩ : ∃ f, fuel = f + 1 := ⟨fuel - 1, by omega⟩
    have h0 : send c.calls stored = false := by simpa using hfail 0 (by omega)
    rw [retryLoop]
    simp only [sendClosure, h0, Bool.not_false, if_true]
    rw [ih f { success := false, calls := c.calls + 1 } (some Error.sendError) (by omega)]
    · simp [Nat.add_comm, Nat.add_left_comm]
    · intro j hj
      have := hfail (j + 1) (by omega)
      simpa [Nat.add_comm, Nat.add_left_comm, Nat.add_assoc] using this
    · simpa [Nat.add_comm, Nat.add_left_comm, Nat.add_assoc] using hok

theorem wrap64_eq_self (x : Int) (hlo : -(2 ^ 63) ≤ x) (hhi : x < 2 ^ 63) : wrap64 x = x := by
  unfold wrap64
  norm_num at hlo hhi ⊢
  omega

theorem wrap64_pos_of_pos (x : Int) (h0 : 0 < x) (hhi : x < 2 ^ 63) : 0 < wrap64 x := by
  rw [wrap64_eq_self x (by norm_num at hhi ⊢; omega) hhi]
  exact h0

theorem innerLoop_fail (send : Channel) (stored : Notification)
    (hfail : ∀ k, send k stored = false)
    (hbudget : 0 < wrap64 (stored.MaxRetries - stored.Attempts)) :
    innerLoop send stored =
      ({ success := false, calls := (wrap64 (stored.MaxRetries - stored.Attempts)).toNat },
        some Error.sendError) := by
  obtain ⟨f, hf⟩ : ∃ f, (wrap64 (stored.MaxRetries - stored.Attempts)).toNat = f + 1 :=
    ⟨(wrap64 (stored.MaxRetries - stored.Attempts)).toNat - 1, by omega⟩
  simp only [innerLoop, DoContext, hf]
  rw [retryLoop_send_fail send stored hfail]
  simp

theorem innerLoop_exhausted (send : Channel) (stored : Notification)
    (hbudget : wrap64 (stored.MaxRetries - stored.Attempts) ≤ 0) :
    innerLoop send stored = ({ success := false, calls := 0 }, none) := by
  have h0 : (wrap64 (stored.MaxRetries - stored.Attempts)).toNat = 0 := by omega
  simp [innerLoop, DoContext, h0, retryLoop]

theorem innerLoop_ok (send : Channel) (stored : Notification) (k : Nat)
    (hk : (k : Int) < wrap64 (stored.MaxRetries - stored.Attempts))
    (hfail : ∀ j, j < k → send j stored = false) (hok : send k stored = true) :
    innerLoop send stored = ({ success := true, calls := k + 1 }, none) := by
  simp only [innerLoop, DoContext]
  rw [retryLoop_send_ok send stored k _ _ _ (by omega)]
  · simp
  · intro j hj; simpa using hfail j hj
  · simpa using hok

/-! ## One run of `handleMessage` -/

theorem GetByID_inFlight (clk : Clock) (id : String) (stored : Notification) (st : RedisState)
    (hget : GetByID st id = some stored) :
    GetByID (if stored.Attempts > 0 then
        ((Update clk.atMark id (fun n => { n with Status := StatusRetrying }) st).2, 2)
      else (st, 1)).1 id = some (inFlight clk stored) := by
  unfold inFlight
  split_ifs with h
  · simp [GetByID_Update_self, hget]
  · simpa using hget

theorem GetByID_inFlight_other (clk : Clock) (id j : String) (hne : j ≠ id)
    (stored : Notification) (st : RedisState) :
    GetByID (if stored.Attempts > 0 then
        ((Update clk.atMark id (fun n => { n with Status := StatusRetrying }) st).2, 2)
      else (st, 1)).1 j = GetByID st j := by
  split_ifs with h
  · simp [GetByID_Update_other _ _ _ hne]
  · rfl

theorem handleMessage_cycle (send : Channel) (clk : Clock) (notification stored : Notification)
    (st : RedisState) (hready : After notification.SendAt clk.atCheck = false)
    (hget : GetByID st notification.ID = some stored)
    (hnc : stored.Status ≠ StatusCancelled) :
    (handleMessage send clk (some notification) st).err = none ∧
    GetByID (handleMessage send clk (some notification) st).store notification.ID =
      some { (finalize (innerLoop send stored).1.success (innerLoop send stored).2
                clk.atBackoff (inFlight clk stored)).1 with UpdatedAt := clk.atStamp } ∧
    (handleMessage send clk (some notification) st).deliveryAttempts =
      (innerLoop send stored).1.calls ∧
    (handleMessage send clk (some notification) st).scheduled =
      (finalize (innerLoop send stored).1.success (innerLoop send stored).2
        clk.atBackoff (inFlight clk stored)).2.map
        (fun r => { r with UpdatedAt := clk.atStamp }) ∧
    ∀ j, j ≠ notification.ID →
      GetByID (handleMessage send clk (some notification) st).store j = GetByID st j := by
  have hm := GetByID_inFlight clk notification.ID stored st hget
  simp only [handleMessage, hready, hget, if_neg hnc, Bool.false_eq_true, if_false]
  refine ⟨?_, ?_, trivial, ?_, ?_⟩
  · exact Update_err_of_found _ _ _ _ _ hm
  · rw [GetByID_Update_self, hm]; rfl
  · rw [hm]
  · intro j hne
    rw [GetByID_Update_other _ _ _ hne, GetByID_inFlight_other clk _ _ hne]

theorem handleMessage_store_cases (send : Channel) (clk : Clock)
    (delivery : Option Notification) (st : RedisState) :
    (handleMessage send clk delivery st).store = st ∨
    ∃ m stored, delivery = some m ∧ After m.SendAt clk.atCheck = false ∧
      GetByID st m.ID = some stored ∧ stored.Status ≠ StatusCancelled := by
  cases delivery with
  | none => left; rfl
  | some m =>
    by_cases hready : After m.SendAt clk.atCheck = true
    · left; simp [handleMessage, hready]
    · have hready2 : After m.SendAt clk.atCheck = false := by simpa using hready
      cases hget : GetByID st m.ID with
      | none => left; simp [handleMessage, hready2, hget]
      | some stored =>
        by_cases hc : stored.Status = StatusCancelled
        · left; simp [handleMessage, hready2, hget, hc]
        · right; exact ⟨m, stored, rfl, hready2, hget, hc⟩

theorem inFlight_Attempts (clk : Clock) (stored : Notification) :
    (inFlight clk stored).Attempts = stored.Attempts := by
  unfold inFlight; split_ifs <;> rfl

theorem inFlight_MaxRetries (clk : Clock) (stored : Notification) :
    (inFlight clk stored).MaxRetries = stored.MaxRetries := by
  unfold inFlight; split_ifs <;> rfl

theorem finalize_Attempts (success : Bool) (retryErr : Option Error) (now : Int)
    (n : Notification) : (finalize success retryErr now n).1.Attempts = n.Attempts + 1 := by
  unfold finalize; simp only; split_ifs <;> rfl

theorem finalize_MaxRetries (success : Bool) (retryErr : Option Error) (now : Int)
    (n : Notification) : (finalize success retryErr now n).1.MaxRetries = n.MaxRetries := by
  unfold finalize; simp only; split_ifs <;> rfl

theorem finalize_error (e : Error) (now : Int) (n : Notification) :
    finalize false (some e) now n =
      ({ n with Attempts := n.Attempts + 1, Status := StatusFailed, NextRetry := none }, []) := by
  simp [finalize]

theorem finalize_exhausted (retryErr : Option Error) (now : Int) (n : Notification)
    (h : n.MaxRetries ≤ n.Attempts + 1) :
    finalize false retryErr now n =
      ({ n with Attempts := n.Attempts + 1, Status := StatusFailed, NextRetry := none }, []) := by
  simp [finalize, h]

theorem finalize_success (retryErr : Option Error) (now : Int) (n : Notification) :
    finalize true retryErr now n =
      ({ n with Attempts := n.Attempts + 1, Status := StatusSent, NextRetry := none }, []) := by
  simp [finalize]

theorem finalize_reschedule_status (now : Int) (n : Notification)
    (h : ¬ n.MaxRetries ≤ n.Attempts + 1) :
    (finalize false none now n).1.Status = StatusRetrying := by
  simp [finalize, h]

theorem cycle_all_fail (send : Channel) (clk : Clock) (m stored : Notification)
    (st : RedisState) (hready : After m.SendAt clk.atCheck = false)
    (hget : GetByID st m.ID = some stored) (hnc : stored.Status ≠ StatusCancelled)
    (hfail : ∀ k n, send k n = false) :
    ∃ n, GetByID (handleMessage send clk (some m) st).store m.ID = some n ∧
      n.Attempts = stored.Attempts + 1 ∧ n.MaxRetries = stored.MaxRetries ∧
      n.Status ≠ StatusCancelled ∧
      (stored.MaxRetries ≤ stored.Attempts + 1 →
        n.Status = StatusFailed ∧ n.NextRetry = none) := by
  obtain ⟨_, hrec, _, _, _⟩ := handleMessage_cycle send clk m stored st hready hget hnc
  refine ⟨_, hrec, ?_⟩
  by_cases hb : 0 < wrap64 (stored.MaxRetries - stored.Attempts)
  · rw [innerLoop_fail send stored (fun k => hfail k stored) hb]
    simp [finalize_error, inFlight_Attempts, inFlight_MaxRetries]
  · rw [innerLoop_exhausted send stored (by omega)]
    refine ⟨by simp [finalize_Attempts, inFlight_Attempts],
      by simp [finalize_MaxRetries, inFlight_MaxRetries], ?_, ?_⟩
    · by_cases hx : stored.MaxRetries ≤ stored.Attempts + 1
      · rw [finalize_exhausted none _ _ (by
          rw [inFlight_Attempts, inFlight_MaxRetries]; exact hx)]
        simp
      · have hst := finalize_reschedule_status clk.atBackoff (inFlight clk stored) (by
          rw [inFlight_Attempts, inFlight_MaxRetries]; exact hx)
        simp only [hst]
        decide
    · intro hx
      rw [finalize_exhausted none _ _ (by
        rw [inFlight_Attempts, inFlight_MaxRetries]; exact hx)]
      simp

theorem runCycles_all_fail (id : String) (cycles : List Cycle) :
    ∀ (st : RedisState) (stored : Notification),
      GetByID st id = some stored → stored.Status ≠ StatusCancelled →
      (∀ c, c ∈ cycles → (∀ k n, c.send k n = false) ∧
        ∃ m, c.delivery = some m ∧ m.ID = id ∧ m.SendAt ≤ c.clk.atCheck) →
      ∃ n, GetByID (runCycles cycles st) id = some n ∧
        n.Attempts = stored.Attempts + cycles.length ∧ n.MaxRetries = stored.MaxRetries ∧
        n.Status ≠ StatusCancelled ∧
        ((cycles ≠ [] ∨ (stored.Status = StatusFailed ∧ stored.NextRetry = none)) →
          stored.MaxRetries ≤ stored.Attempts + cycles.length →
          n.Status = StatusFailed ∧ n.NextRetry = none) := by
  induction cycles with
  | nil =>
    intro st stored hget hnc _
    refine ⟨stored, hget, by simp, rfl, hnc, ?_⟩
    rintro (h | h) _
    · exact absurd rfl h
    · exact h
  | cons c rest ih =>
    intro st stored hget hnc hcyc
    obtain ⟨hfail, m, hdel, hid, hdue⟩ := hcyc c (List.mem_cons_self _ _)
    have hready : After m.SendAt c.clk.atCheck = false := by
      simp only [After, decide_eq_false_iff_not]; exact not_lt.mpr hdue
    subst hid
    obtain ⟨n1, hn1, ha1, hm1, hc1, hf1⟩ :=
      cycle_all_fail c.send c.clk m stored st hready hget hnc hfail
    have hstep : runCycles (c :: rest) st =
        runCycles rest (handleMessage c.send c.clk (some m) st).store := by
      simp [runCycles, hdel]
    obtain ⟨n, hn, ha, hm, hc, hfin⟩ := ih _ n1 hn1 hc1
      (fun d hd => hcyc d (List.mem_cons_of_mem _ hd))
    have hlen : n.Attempts = stored.Attempts + ((c :: rest).length : Nat) := by
      rw [ha, ha1]; simp only [List.length_cons]; push_cast; ring
    refine ⟨n, by rw [hstep]; exact hn, hlen, by rw [hm, hm1], hc, ?_⟩
    intro _ hle
    have hle2 : n1.MaxRetries ≤ n1.Attempts + (rest.length : Nat) := by
      rw [hm1, ha1]
      simp only [List.length_cons] at hle
      push_cast at hle
      omega
    by_cases hrest : rest = []
    · subst hrest
      have hx : stored.MaxRetries ≤ stored.Attempts + 1 := by
        simpa using hle
      exact hfin (Or.inr (hf1 hx)) hle2
    · exact hfin (Or.inl hrest) hle2

/-- C1: with `delay = sendAt - now`, `PublishDelayed` publishes nothing and returns no error
when `delay > 60s`; publishes the record with routing key `ready` and no expiration when
`delay <= 0`; and otherwise (`0 < delay <= 60s`) publishes it with routing key `delayed` and
an expiration equal to `delay`. -/
theorem PublishDelayed_contract (publish : Publication → Bool) (now : Int)
    (n : Notification) :
    (n.SendAt - now > 60 * Second →
      PublishDelayed publish now n = { err := none, calls := [] }) ∧
    (n.SendAt - now ≤ 0 →
      (PublishDelayed publish now n).calls =
        [{ body := n, routingKey := "ready", expiration := none }]) ∧
    (0 < n.SendAt - now → n.SendAt - now ≤ 60 * Second →
      (PublishDelayed publish now n).calls =
        [{ body := n, routingKey := "delayed", expiration := some (n.SendAt - now) }]) := by
  have hsec : Second = 1000000000 := rfl
  have hmax : maxDuration = 9223372036854775807 := by norm_num [maxDuration]
  have hmin : minDuration = -9223372036854775808 := by norm_num [minDuration]
  refine ⟨?_, ?_, ?_⟩
  · intro h
    have hd : calculateDelay now n.SendAt > 60 * Second := by
      unfold calculateDelay Before Sub
      rw [hsec, hmax, hmin] at *
      have h1 : ¬ n.SendAt < now := by omega
      simp only [h1, decide_False, Bool.false_eq_true, if_false]
      split_ifs <;> omega
    simp [PublishDelayed, hd]
  · intro h
    have hd : calculateDelay now n.SendAt = 0 := by
      unfold calculateDelay Before Sub
      rw [hmax, hmin]
      by_cases h1 : n.SendAt < now
      · simp [h1]
      · have h2 : n.SendAt - now = 0 := by omega
        simp [h1, h2]
    unfold PublishDelayed
    simp only [hd]
    rw [hsec]
    simp only [show ¬ ((0 : Int) > 60 * 1000000000) by norm_num, if_false, le_refl, if_true]
    split_ifs <;> rfl
  · intro h0 h60
    have hd : calculateDelay now n.SendAt = n.SendAt - now := by
      unfold calculateDelay Before Sub
      rw [hsec, hmax, hmin] at *
      have h1 : ¬ n.SendAt < now := by omega
      simp only [h1, decide_False, Bool.false_eq_true, if_false]
      split_ifs <;> omega
    unfold PublishDelayed
    simp only [hd]
    have h2 : ¬ (n.SendAt - now > 60 * Second) := not_lt.mpr h60
    have h3 : ¬ (n.SendAt - now ≤ 0) := not_le.mpr h0
    simp only [h2, h3, if_false]
    split_ifs <;> rfl

/-- Witness of C1 at a delay of exactly 60 seconds. -/
theorem PublishDelayed_contract_witness :
    (PublishDelayed (fun _ => true) (-30 * Second) sampleRecord).calls =
      [{ body := sampleRecord, routingKey := "delayed",
         expiration := some (sampleRecord.SendAt - (-30 * Second)) }] :=
  (PublishDelayed_contract (fun _ => true) (-30 * Second) sampleRecord).2.2
    (by decide) (by decide)

/-- C2: a ready-queue message whose snapshot is due and whose stored record exists and is not
cancelled, handled in a cycle whose inner loop succeeds (the attempts before number `k` fail,
attempt number `k` succeeds, within the budget the source computes, the 64-bit difference
`MaxRetries - Attempts`), leaves the stored record `StatusSent` with no next retry and with
its attempts incremented by exactly one, whatever `k` is, and `handleMessage` returns no
error. -/
theorem handleMessage_success (send : Channel) (clk : Clock) (notification stored : Notification)
    (st : RedisState) (k : Nat)
    (hdue : notification.SendAt ≤ clk.atCheck)
    (hget : GetByID st notification.ID = some stored)
    (hnc : stored.Status ≠ StatusCancelled)
    (hbudget : (k : Int) < wrap64 (stored.MaxRetries - stored.Attempts))
    (hfail : ∀ j, j < k → send j stored = false)
    (hok : send k stored = true) :
    (handleMessage send clk (some notification) st).err = none ∧
    (handleMessage send clk (some notification) st).deliveryAttempts = k + 1 ∧
    ∃ n, GetByID (handleMessage send clk (some notification) st).store notification.ID = some n ∧
      n.Status = StatusSent ∧ n.NextRetry = none ∧ n.Attempts = stored.Attempts + 1 := by
  have hready : After notification.SendAt clk.atCheck = false := by
    simp only [After, decide_eq_false_iff_not]; exact not_lt.mpr hdue
  obtain ⟨herr, hrec, hatt, _, _⟩ :=
    handleMessage_cycle send clk notification stored st hready hget hnc
  have hloop := innerLoop_ok send stored k hbudget hfail hok
  refine ⟨herr, by rw [hatt, hloop], _, hrec, ?_⟩
  rw [hloop]
  simp [finalize_success, inFlight_Attempts]

/-- Witness of C2: a fresh record, delivered at the third inner attempt, ends sent with one
attempt. -/
theorem handleMessage_success_witness :
    (handleMessage thirdTimeChannel sampleClock (some sampleRecord) sampleStore).err = none ∧
    (handleMessage thirdTimeChannel sampleClock (some sampleRecord) sampleStore).deliveryAttempts
      = 2 + 1 ∧
    ∃ n, GetByID (handleMessage thirdTimeChannel sampleClock (some sampleRecord)
        sampleStore).store sampleRecord.ID = some n ∧
      n.Status = StatusSent ∧ n.NextRetry = none ∧ n.Attempts = sampleRecord.Attempts + 1 :=
  handleMessage_success thirdTimeChannel sampleClock sampleRecord sampleRecord sampleStore 2
    (by decide) (by decide) (by decide) (by decide)
    (by intro j hj; simp only [thirdTimeChannel, decide_eq_false_iff_not]; omega) (by decide)

/-- C3: for `N >= 1` and a stored record (not cancelled) with `MaxRetries = N` and no attempts,
after `N` consecutive cycles of `handleMessage` for it, each with a due snapshot and a channel
that fails on every attempt, the stored record is `StatusFailed` with no next retry. -/
theorem failed_after_N_failed_cycles (N : Nat) (hN : 1 ≤ N) (id : String)
    (stored : Notification) (st : RedisState) (cycles : List Cycle)
    (hget : GetByID st id = some stored)
    (hmax : stored.MaxRetries = N) (hatt : stored.Attempts = 0)
    (hnc : stored.Status ≠ StatusCancelled)
    (hlen : cycles.length = N)
    (hcyc : ∀ c, c ∈ cycles → (∀ k n, c.send k n = false) ∧
      ∃ m, c.delivery = some m ∧ m.ID = id ∧ m.SendAt ≤ c.clk.atCheck) :
    ∃ n, GetByID (runCycles cycles st) id = some n ∧
      n.Status = StatusFailed ∧ n.NextRetry = none ∧ n.Attempts = N ∧ n.MaxRetries = N := by
  obtain ⟨n, hn, ha, hm, _, hfin⟩ := runCycles_all_fail id cycles st stored hget hnc hcyc
  have hne : cycles ≠ [] := by
    intro h; rw [h] at hlen; simp at hlen; omega
  obtain ⟨hs, hr⟩ := hfin (Or.inl hne) (by rw [hmax, hatt, hlen]; simp)
  exact ⟨n, hn, hs, hr, by rw [ha, hatt, hlen]; simp, by rw [hm, hmax]⟩

/-- Witness of C3 for `N = 3`. -/
theorem failed_after_N_failed_cycles_witness :
    ∃ n, GetByID (runCycles
        (List.replicate 3 { send := failingChannel, clk := sampleClock,
                            delivery := some sampleRecord }) sampleStore) "n1" = some n ∧
      n.Status = StatusFailed ∧ n.NextRetry = none ∧ n.Attempts = (3 : Nat) ∧
      n.MaxRetries = (3 : Nat) :=
  failed_after_N_failed_cycles 3 (by decide) "n1" sampleRecord sampleStore
    (List.replicate 3 { send := failingChannel, clk := sampleClock,
                        delivery := some sampleRecord })
    (by decide) (by decide) (by decide) (by decide) (by decide)
    (by
      intro c hc
      rw [List.eq_of_mem_replicate hc]
      exact ⟨fun _ _ => rfl, sampleRecord, rfl, rfl, by decide⟩)

theorem backoffDelay_small (a : Int) (h0 : 0 ≤ a) (h33 : a ≤ 33) :
    backoffDelay a = 2 ^ a.toNat * Second := by
  obtain ⟨k, rfl⟩ : ∃ k : Nat, a = (k : Int) := ⟨a.toNat, by omega⟩
  have hk : k ≤ 33 := by omega
  have h1 : ¬ ((k : Int) < 0) := by omega
  have h2 : (k : Int) ≤ 62 := by omega
  simp only [backoffDelay, h1, h2, if_false, if_true, Int.toNat_ofNat, wrap64, Second]
  interval_cases k <;> norm_num

theorem cycle_error_marks_failed (send : Channel) (clk : Clock)
    (notification stored : Notification) (st : RedisState)
    (hdue : notification.SendAt ≤ clk.atCheck)
    (hget : GetByID st notification.ID = some stored)
    (hnc : stored.Status ≠ StatusCancelled)
    (hs : (innerLoop send stored).1.success = false)
    (he : (innerLoop send stored).2 ≠ none) :
    (handleMessage send clk (some notification) st).scheduled = [] ∧
    ∃ n, GetByID (handleMessage send clk (some notification) st).store notification.ID
        = some n ∧
      n.Status = StatusFailed ∧ n.NextRetry = none ∧ n.Attempts = stored.Attempts + 1 := by
  have hready : After notification.SendAt clk.atCheck = false := by
    simp only [After, decide_eq_false_iff_not]; exact not_lt.mpr hdue
  obtain ⟨_, hrec, _, hsch, _⟩ :=
    handleMessage_cycle send clk notification stored st hready hget hnc
  obtain ⟨e, he2⟩ := Option.ne_none_iff_exists'.mp he
  rw [hs, he2, finalize_error] at hsch hrec
  exact ⟨hsch, _, hrec, rfl, rfl, by simp [inFlight_Attempts]⟩

/-- C4, at the failing input: the record created with five retries is sent with two attempts
after two deliveries through the channel of the source.  At the next due delivery the
channel refuses it on each of the three attempts of the inner loop, so the loop failed, and
three attempts are counted out of five: attempts remain.  Yet the stored record is
`StatusFailed` with no next retry, its send time is unchanged, and nothing is handed to
`PublishDelayed`, where the claim has `StatusRetrying`, a next retry at `now + 2^3` seconds
and a call of `PublishDelayed`. -/
theorem reschedule_skipped_with_attempts_left :
    ∃ stored n, GetByID twiceDeliveredFive "n1" = some stored ∧
      stored.Attempts = 2 ∧ stored.MaxRetries = 5 ∧
      fiveRetriesRecord.SendAt ≤ sampleClock.atCheck ∧
      (innerLoop sendNotification stored).1.success = false ∧
      (innerLoop sendNotification stored).1.calls = 3 ∧
      GetByID (handleMessage sendNotification sampleClock (some fiveRetriesRecord)
        twiceDeliveredFive).store "n1" = some n ∧
      n.Attempts = 3 ∧ n.Attempts < n.MaxRetries ∧
      n.Status = StatusFailed ∧ n.NextRetry = none ∧ n.SendAt = stored.SendAt ∧
      (handleMessage sendNotification sampleClock (some fiveRetriesRecord)
        twiceDeliveredFive).scheduled = [] ∧
      ¬ (n.Status = StatusRetrying ∧
         n.NextRetry = some (sampleClock.atBackoff + 2 ^ 3 * Second)) :=
  ⟨{ fiveRetriesRecord with Status := StatusSent, Attempts := 2,
                            UpdatedAt := sampleClock.atStamp },
   { fiveRetriesRecord with Status := StatusFailed, Attempts := 3,
                            UpdatedAt := sampleClock.atStamp },
   by decide, by decide, by decide, by decide, by decide, by decide, by decide, by decide,
   by decide, by decide, by decide, by decide, by decide, by decide⟩

/-- C5: a due ready-queue message whose id has no stored record, or whose stored record is
cancelled, is acknowledged (no error) with no delivery attempt, nothing handed to
`PublishDelayed`, and the store left as it was. -/
theorem handleMessage_absent_or_cancelled (send : Channel) (clk : Clock)
    (notification : Notification) (st : RedisState)
    (hdue : notification.SendAt ≤ clk.atCheck)
    (hgone : GetByID st notification.ID = none ∨
      ∃ stored, GetByID st notification.ID = some stored ∧
        stored.Status = StatusCancelled) :
    (handleMessage send clk (some notification) st).err = none ∧
    (handleMessage send clk (some notification) st).deliveryAttempts = 0 ∧
    (handleMessage send clk (some notification) st).scheduled = [] ∧
    (handleMessage send clk (some notification) st).store = st := by
  have hready : After notification.SendAt clk.atCheck = false := by
    simp only [After, decide_eq_false_iff_not]; exact not_lt.mpr hdue
  rcases hgone with h | ⟨stored, h, hc⟩
  · simp [handleMessage, hready, h]
  · simp [handleMessage, hready, h, hc]

/-- Witness of C5: the sample message on an empty store. -/
theorem handleMessage_absent_or_cancelled_witness :
    (handleMessage sendNotification sampleClock (some sampleRecord) RedisState.empty).err
      = none ∧
    (handleMessage sendNotification sampleClock (some sampleRecord)
      RedisState.empty).deliveryAttempts = 0 ∧
    (handleMessage sendNotification sampleClock (some sampleRecord)
      RedisState.empty).scheduled = [] ∧
    (handleMessage sendNotification sampleClock (some sampleRecord) RedisState.empty).store
      = RedisState.empty :=
  handleMessage_absent_or_cancelled sendNotification sampleClock sampleRecord RedisState.empty
    (by decide) (Or.inl (by decide))

/-- C8, counterexample: a stored failed record with `Attempts = MaxRetries = 3` satisfies the
bound; after a redelivered due message for it the stored record has four attempts. -/
theorem attempts_bound_counterexample :
    ∃ stored n,
      GetByID (Create { sampleRecord with Attempts := 3, Status := StatusFailed }
        RedisState.empty) "n1" = some stored ∧
      stored.Attempts ≤ stored.MaxRetries ∧
      GetByID (handleMessage sendNotification sampleClock (some sampleRecord)
        (Create { sampleRecord with Attempts := 3, Status := StatusFailed }
          RedisState.empty)).store "n1" = some n ∧
      ¬ (n.Attempts ≤ n.MaxRetries) :=
  ⟨{ sampleRecord with Attempts := 3, Status := StatusFailed },
   { sampleRecord with Attempts := 4, Status := StatusFailed,
                       UpdatedAt := sampleClock.atStamp },
   by decide, by decide, by decide, by decide⟩

/-- C8, amended: for every stored record with `Attempts < MaxRetries` and every ready-queue
message, the stored record satisfies `Attempts <= MaxRetries` once `handleMessage` has run;
a stored record that is not cancelled and already has `Attempts = MaxRetries` ends a cycle
for a due message with `Attempts = MaxRetries + 1`. -/
theorem attempts_bound_preserved (send : Channel) (clk : Clock)
    (delivery : Option Notification) (st : RedisState) (id : String) (stored : Notification)
    (hget : GetByID st id = some stored) :
    (stored.Attempts < stored.MaxRetries →
      ∃ n, GetByID (handleMessage send clk delivery st).store id = some n ∧
        n.Attempts ≤ n.MaxRetries) ∧
    (stored.Attempts = stored.MaxRetries → stored.Status ≠ StatusCancelled →
      (∃ m, delivery = some m ∧ m.ID = id ∧ m.SendAt ≤ clk.atCheck) →
      ∃ n, GetByID (handleMessage send clk delivery st).store id = some n ∧
        n.Attempts = n.MaxRetries + 1) := by
  constructor
  · intro hlt
    rcases handleMessage_store_cases send clk delivery st with h | ⟨m, sm, hd, hready, hg, hnc⟩
    · exact ⟨stored, by rw [h]; exact hget, le_of_lt hlt⟩
    · subst hd
      obtain ⟨_, hrec, _, _, hother⟩ := handleMessage_cycle send clk m sm st hready hg hnc
      by_cases hid : id = m.ID
      · subst hid
        have hsm : sm = stored := Option.some.inj (hg.symm.trans hget)
        subst hsm
        refine ⟨_, hrec, ?_⟩
        simp only [finalize_Attempts, finalize_MaxRetries, inFlight_Attempts,
          inFlight_MaxRetries]
        omega
      · exact ⟨stored, by rw [hother id hid]; exact hget, le_of_lt hlt⟩
  · rintro heq hnc ⟨m, hd, hid, hdue⟩
    subst hd; subst hid
    have hready : After m.SendAt clk.atCheck = false := by
      simp only [After, decide_eq_false_iff_not]; exact not_lt.mpr hdue
    obtain ⟨_, hrec, _, _, _⟩ := handleMessage_cycle send clk m stored st hready hget hnc
    refine ⟨_, hrec, ?_⟩
    simp only [finalize_Attempts, finalize_MaxRetries, inFlight_Attempts, inFlight_MaxRetries]
    omega

/-- Witness of the amended C8 on the sample record and on its exhausted copy. -/
theorem attempts_bound_preserved_witness :
    (∃ n, GetByID (handleMessage failingChannel sampleClock (some sampleRecord)
        sampleStore).store "n1" = some n ∧ n.Attempts ≤ n.MaxRetries) ∧
    (∃ n, GetByID (handleMessage failingChannel sampleClock (some sampleRecord)
        (Create { sampleRecord with Attempts := 3, Status := StatusFailed }
          RedisState.empty)).store "n1" = some n ∧ n.Attempts = n.MaxRetries + 1) :=
  ⟨(attempts_bound_preserved failingChannel sampleClock (some sampleRecord) sampleStore "n1"
      sampleRecord (by decide)).1 (by decide),
   (attempts_bound_preserved failingChannel sampleClock (some sampleRecord)
      (Create { sampleRecord with Attempts := 3, Status := StatusFailed } RedisState.empty)
      "n1" { sampleRecord with Attempts := 3, Status := StatusFailed } (by decide)).2
      (by decide) (by decide) ⟨sampleRecord, rfl, rfl, by decide⟩⟩

/-- C9, counterexample: on a new scheduler and on a new processor the first `Stop` succeeds
and the second one faults, closing a closed channel. -/
theorem stop_twice_counterexample :
    (NewScheduler.Stop.bind Scheduler.Stop) = Except.error Panic.closeOfClosedChannel ∧
    (NewProcessor.Stop.bind Processor.Stop) = Except.error Panic.closeOfClosedChannel := by
  constructor <;> rfl

/-- C9, amended: `Stop` has no guard.  On an open stop channel `Scheduler.Stop` and
`Processor.Stop` close it without fault; on a closed stop channel, as at a second call, each
of them faults with a close of a closed channel. -/
theorem stop_closes_once (s : Scheduler) (p : Processor) :
    (s.stopChan = ChanState.opened → s.Stop = Except.ok { stopChan := ChanState.closed }) ∧
    (s.stopChan = ChanState.closed → s.Stop = Except.error Panic.closeOfClosedChannel) ∧
    (p.stopChan = ChanState.opened → p.Stop = Except.ok { stopChan := ChanState.closed }) ∧
    (p.stopChan = ChanState.closed → p.Stop = Except.error Panic.closeOfClosedChannel) := by
  obtain ⟨sc⟩ := s
  obtain ⟨pc⟩ := p
  refine ⟨?_, ?_, ?_, ?_⟩ <;> intro h <;> simp only at h <;> subst h <;> rfl

/-- Witness of the amended C9: the first stop of a new scheduler and of a new processor. -/
theorem stop_closes_once_witness :
    NewScheduler.Stop = Except.ok { stopChan := ChanState.closed } ∧
    NewProcessor.Stop = Except.ok { stopChan := ChanState.closed } :=
  ⟨(stop_closes_once NewScheduler NewProcessor).1 rfl,
   (stop_closes_once NewScheduler NewProcessor).2.2.1 rfl⟩

/-- C10: a ready-queue message whose snapshot send time is strictly after `now` makes
`handleMessage` return the error `notReady` with no call on the store, the store unchanged,
no delivery attempt and nothing handed to `PublishDelayed`; a snapshot whose send time equals
`now` is not rejected, the run returns no error. -/
theorem handleMessage_not_ready (send : Channel) (clk : Clock) (notification : Notification)
    (st : RedisState) :
    (notification.SendAt > clk.atCheck →
      handleMessage send clk (some notification) st =
        { err := some Error.notReady, store := st, storeCalls := 0, deliveryAttempts := 0,
          scheduled := [] }) ∧
    (notification.SendAt = clk.atCheck →
      (handleMessage send clk (some notification) st).err = none) := by
  constructor
  · intro h
    have hready : After notification.SendAt clk.atCheck = true := by
      simp only [After, decide_eq_true_eq]; exact h
    simp [handleMessage, hready]
  · intro h
    have hready : After notification.SendAt clk.atCheck = false := by
      simp only [After, decide_eq_false_iff_not]; exact not_lt.mpr (le_of_eq h)
    cases hget : GetByID st notification.ID with
    | none => simp [handleMessage, hready, hget]
    | some stored =>
      by_cases hc : stored.Status = StatusCancelled
      · simp [handleMessage, hready, hget, hc]
      · exact (handleMessage_cycle send clk notification stored st hready hget hc).1

/-- Witness of C10: the sample message one nanosecond early, and exactly on time. -/
theorem handleMessage_not_ready_witness :
    handleMessage sendNotification
        { sampleClock with atCheck := sampleRecord.SendAt - 1 } (some sampleRecord) sampleStore =
      { err := some Error.notReady, store := sampleStore, storeCalls := 0,
        deliveryAttempts := 0, scheduled := [] } ∧
    (handleMessage sendNotification
        { sampleClock with atCheck := sampleRecord.SendAt } (some sampleRecord) sampleStore).err
      = none :=
  ⟨(handleMessage_not_ready sendNotification
      { sampleClock with atCheck := sampleRecord.SendAt - 1 } sampleRecord sampleStore).1
      (by decide),
   (handleMessage_not_ready sendNotification
      { sampleClock with atCheck := sampleRecord.SendAt } sampleRecord sampleStore).2 rfl⟩

/-! ## One tick of the scheduler -/

theorem publish_loop_err (accept : Broker) (n : Notification) :
    ((DoContext tickStrategy (publishClosure accept n) { tries := 0, calls := [] }).2 = none) ↔
      publishSucceeds accept n = true := by
  have h3 : tickStrategy.Attempts.toNat = 3 := rfl
  cases h0 : accept 0 { body := n, routingKey := "ready", expiration := none } <;>
  cases h1 : accept 1 { body := n, routingKey := "ready", expiration := none } <;>
  cases h2 : accept 2 { body := n, routingKey := "ready", expiration := none } <;>
  simp [DoContext, h3, retryLoop, publishClosure, PublishImmediate, publishSucceeds,
    readyPublication, h0, h1, h2]

theorem publish_loop_calls (accept : Broker) (n : Notification) (p : Publication) :
    p ∈ (DoContext tickStrategy (publishClosure accept n) { tries := 0, calls := [] }).1.calls ↔
      p = readyPublication n := by
  have h3 : tickStrategy.Attempts.toNat = 3 := rfl
  cases h0 : accept 0 { body := n, routingKey := "ready", expiration := none } <;>
  cases h1 : accept 1 { body := n, routingKey := "ready", expiration := none } <;>
  cases h2 : accept 2 { body := n, routingKey := "ready", expiration := none } <;>
  simp [DoContext, h3, retryLoop, publishClosure, PublishImmediate,
    readyPublication, h0, h1, h2]

theorem statusOf_Update_self (now : Int) (id : String) (f : Notification → Notification)
    (s : RedisState) :
    statusOf (Update now id f s).2 id = (GetByID s id).map (fun n => (f n).Status) := by
  unfold statusOf
  rw [GetByID_Update_self]
  cases GetByID s id <;> rfl

theorem statusOf_Update_other (now : Int) (id j : String) (hne : j ≠ id)
    (f : Notification → Notification) (s : RedisState) :
    statusOf (Update now id f s).2 j = statusOf s j := by
  simp [statusOf, GetByID_Update_other _ _ _ hne]

theorem tickStep_statusOf (accept : Broker) (clk : TickClock) (acc : TickResult)
    (m : Notification) (id : String) :
    statusOf (tickStep accept clk acc m).store id =
      if (decide (m.ID = id) && qualifies clk.now m && publishSucceeds accept m) = true then
        (statusOf acc.store id).map (fun _ => StatusRetrying)
      else statusOf acc.store id := by
  unfold tickStep
  by_cases hq : qualifies clk.now m = true
  · simp only [hq, if_true, Bool.and_true]
    cases hp : publishSucceeds accept m with
    | true =>
      have he := (publish_loop_err accept m).mpr hp
      simp only [he, Bool.and_true, decide_eq_true_eq]
      by_cases hid : m.ID = id
      · subst hid
        rw [statusOf_Update_self]
        simp only [statusOf, if_true]
        cases GetByID acc.store m.ID <;> rfl
      · have hne : id ≠ m.ID := fun e => hid e.symm
        simp [statusOf_Update_other _ _ _ hne, hid]
    | false =>
      have he : (DoContext tickStrategy (publishClosure accept m)
          { tries := 0, calls := [] }).2 ≠ none := by
        intro h; rw [(publish_loop_err accept m).mp h] at hp; cases hp
      obtain ⟨e, he2⟩ := Option.ne_none_iff_exists'.mp he
      simp [he2]
  · have hq2 : qualifies clk.now m = false := by simpa using hq
    simp [hq2]

theorem tickStep_published (accept : Broker) (clk : TickClock) (acc : TickResult)
    (m : Notification) (p : Publication) :
    p ∈ (tickStep accept clk acc m).published ↔
      p ∈ acc.published ∨ (qualifies clk.now m = true ∧ p = readyPublication m) := by
  unfold tickStep
  by_cases hq : qualifies clk.now m = true
  · simp only [hq, if_true, true_and]
    cases he : (DoContext tickStrategy (publishClosure accept m)
        { tries := 0, calls := [] }).2 <;>
      simp [List.mem_append, publish_loop_calls]
  · simp [hq]

theorem tick_fold_statusOf (accept : Broker) (clk : TickClock) (id : String)
    (l : List Notification) :
    ∀ acc : TickResult,
      statusOf (l.foldl (tickStep accept clk) acc).store id =
        if l.any (fun m => decide (m.ID = id) && qualifies clk.now m &&
            publishSucceeds accept m) = true then
          (statusOf acc.store id).map (fun _ => StatusRetrying)
        else statusOf acc.store id := by
  induction l with
  | nil => intro acc; simp
  | cons m rest ih =>
    intro acc
    rw [List.foldl_cons, ih, tickStep_statusOf, List.any_cons]
    by_cases h1 : (decide (m.ID = id) && qualifies clk.now m && publishSucceeds accept m) = true
    · by_cases h2 : rest.any (fun m => decide (m.ID = id) && qualifies clk.now m &&
          publishSucceeds accept m) = true
      · simp only [h1, h2, Bool.true_or, if_true]
        cases statusOf acc.store id <;> rfl
      · simp [h1, h2]
    · have h1f : (decide (m.ID = id) && qualifies clk.now m && publishSucceeds accept m)
          = false := by simpa using h1
      rw [h1f]; simp

theorem tick_fold_published (accept : Broker) (clk : TickClock) (p : Publication)
    (l : List Notification) :
    ∀ acc : TickResult,
      p ∈ (l.foldl (tickStep accept clk) acc).published ↔
        p ∈ acc.published ∨ ∃ m, m ∈ l ∧ qualifies clk.now m = true ∧
          p = readyPublication m := by
  induction l with
  | nil => intro acc; simp
  | cons m rest ih =>
    intro acc
    rw [List.foldl_cons, ih, tickStep_published]
    constructor
    · rintro ((h | ⟨hq, hp⟩) | ⟨x, hx, hq, hp⟩)
      · exact Or.inl h
      · exact Or.inr ⟨m, List.mem_cons_self _ _, hq, hp⟩
      · exact Or.inr ⟨x, List.mem_cons_of_mem _ hx, hq, hp⟩
    · rintro (h | ⟨x, hx, hq, hp⟩)
      · exact Or.inl (Or.inl h)
      · rcases List.mem_cons.mp hx with rfl | hx2
        · exact Or.inl (Or.inr ⟨hq, hp⟩)
        · exact Or.inr ⟨x, hx2, hq, hp⟩

theorem checkPendingNotifications_eq (accept : Broker) (clk : TickClock) (st : RedisState) :
    checkPendingNotifications accept clk st =
      (GetAll st).foldl (tickStep accept clk) { store := st, published := [] } := by
  have h3 : tickStrategy.Attempts.toNat = 3 := rfl
  simp [checkPendingNotifications, DoContext, h3, retryLoop]

theorem mem_GetAll (st : RedisState) (m : Notification) :
    m ∈ GetAll st ↔ ∃ id, id ∈ st.all ∧ GetByID st id = some m := by
  simp [GetAll, List.mem_filterMap]

theorem qualifies_iff (now : Int) (n : Notification) :
    qualifies now n = true ↔
      n.Status = StatusPending ∧ n.SendAt < now ∧ now - n.SendAt < 24 * Hour := by
  simp only [qualifies, Before, After, Add, Bool.and_eq_true, decide_eq_true_eq, and_assoc]
  constructor
  · rintro ⟨h1, h2, h3⟩; exact ⟨h1, h2, by omega⟩
  · rintro ⟨h1, h2, h3⟩; exact ⟨h1, h2, by omega⟩

theorem tick_any_eq (accept : Broker) (now : Int) (st : RedisState) (hwf : st.Consistent)
    (id : String) (n : Notification) (hget : GetByID st id = some n) :
    (GetAll st).any (fun m => decide (m.ID = id) && qualifies now m &&
        publishSucceeds accept m) = (qualifies now n && publishSucceeds accept n) := by
  rw [Bool.eq_iff_iff]
  simp only [List.any_eq_true, Bool.and_eq_true, decide_eq_true_eq]
  constructor
  · rintro ⟨m, hm, ⟨hid, hq⟩, hp⟩
    obtain ⟨j, _, hj⟩ := (mem_GetAll st m).mp hm
    have hmj : m.ID = j := (hwf j m hj).1
    have hmn : m = n := by
      rw [← hmj, hid] at hj
      exact Option.some.inj (hj.symm.trans hget)
    subst hmn
    exact ⟨hq, hp⟩
  · rintro ⟨hq, hp⟩
    exact ⟨n, (mem_GetAll st n).mpr ⟨id, (hwf id n hget).2, hget⟩, ⟨(hwf id n hget).1, hq⟩, hp⟩

/-- C6, counterexample: the sample record is pending, its send time has passed and it is
overdue by exactly 24 hours, no more than the lookback window, and the broker accepts every
publication; yet the tick issues no publication and the record stays pending. -/
theorem tick_boundary_counterexample :
    GetByID sampleStore "n1" = some sampleRecord ∧
    sampleRecord.Status = StatusPending ∧
    sampleRecord.SendAt < boundaryTick.now ∧
    boundaryTick.now - sampleRecord.SendAt ≤ 24 * Hour ∧
    publishSucceeds acceptingBroker sampleRecord = true ∧
    (checkPendingNotifications acceptingBroker boundaryTick sampleStore).published = [] ∧
    statusOf (checkPendingNotifications acceptingBroker boundaryTick sampleStore).store "n1"
      = some StatusPending := by
  refine ⟨by decide, by decide, by decide, by decide, by decide, by decide, by decide⟩

/-- C6, amended: on a consistent store, after one tick each stored record is `StatusRetrying`
if it was pending, its send time is before `now`, it is overdue by less than 24 hours
(strictly), and its retried `PublishImmediate` succeeded; every other record keeps its status,
no record appears or disappears, and `PublishImmediate` is called for exactly the records that
pass the three tests. -/
theorem tick_promotes_qualifying (accept : Broker) (clk : TickClock) (st : RedisState)
    (hwf : st.Consistent) :
    (∀ id n, GetByID st id = some n →
      statusOf (checkPendingNotifications accept clk st).store id =
        some (if (qualifies clk.now n && publishSucceeds accept n) = true
              then StatusRetrying else n.Status)) ∧
    (∀ id, GetByID st id = none →
      GetByID (checkPendingNotifications accept clk st).store id = none) ∧
    (∀ p, p ∈ (checkPendingNotifications accept clk st).published ↔
      ∃ id n, GetByID st id = some n ∧ qualifies clk.now n = true ∧
        p = readyPublication n) ∧
    (∀ n, qualifies clk.now n = true ↔
      n.Status = StatusPending ∧ n.SendAt < clk.now ∧ clk.now - n.SendAt < 24 * Hour) := by
  refine ⟨?_, ?_, ?_, fun n => qualifies_iff clk.now n⟩
  · intro id n hget
    rw [checkPendingNotifications_eq, tick_fold_statusOf, tick_any_eq accept clk.now st hwf id n hget]
    simp only [statusOf, hget, Option.map_some']
    split_ifs <;> rfl
  · intro id hget
    have h := tick_fold_statusOf accept clk id (GetAll st) { store := st, published := [] }
    rw [← checkPendingNotifications_eq] at h
    simp only [statusOf, hget, Option.map_none', ite_self] at h
    simpa using h
  · intro p
    rw [checkPendingNotifications_eq, tick_fold_published]
    simp only [List.not_mem_nil, false_or]
    constructor
    · rintro ⟨m, hm, hq, hp⟩
      obtain ⟨j, _, hj⟩ := (mem_GetAll st m).mp hm
      exact ⟨j, m, hj, hq, hp⟩
    · rintro ⟨id, n, hget, hq, hp⟩
      exact ⟨n, (mem_GetAll st n).mpr ⟨id, (hwf id n hget).2, hget⟩, hq, hp⟩

theorem sampleStore_consistent : sampleStore.Consistent := by
  intro id n h
  by_cases hid : id = "n1"
  · subst hid
    have hn : n = sampleRecord := (Option.some.inj h).symm
    subst hn
    exact ⟨rfl, by decide⟩
  · exfalso
    have hne : ¬ ("n1" = id) := fun e => hid e.symm
    simp [GetByID, sampleStore, Create, isDue, sampleRecord, RedisState.Set, RedisState.SAdd,
      RedisState.ZAdd, RedisState.empty, kvSet, kvDel, kvGet, hne] at h

/-- Witness of the amended C6: the sample record is promoted by a tick ten seconds after it
is due. -/
theorem tick_promotes_qualifying_witness :
    statusOf (checkPendingNotifications acceptingBroker sampleTick sampleStore).store "n1" =
      some StatusRetrying :=
  (tick_promotes_qualifying acceptingBroker sampleTick sampleStore sampleStore_consistent).1
    "n1" sampleRecord (by decide)

/-! ## The due-index -/

theorem GetByID_Create (n : Notification) (s : RedisState) (j : String) :
    GetByID (Create n s) j = if j = n.ID then some n else GetByID s j := by
  unfold Create
  by_cases hj : j = n.ID
  · subst hj
    rw [if_pos rfl]
    split_ifs <;>
      simp [GetByID, RedisState.Set, RedisState.SAdd, RedisState.ZAdd, kvGet_kvSet_self]
  · simp only [if_neg hj]
    split_ifs <;>
      simp [GetByID, RedisState.Set, RedisState.SAdd, RedisState.ZAdd,
        kvGet_kvSet_other _ _ hj]

theorem ZScore_Create (n : Notification) (s : RedisState) (j : String) :
    (Create n s).ZScore j =
      if j = n.ID then (if isDue n = true then dueKey n else s.ZScore j) else s.ZScore j := by
  unfold Create dueKey
  by_cases hj : j = n.ID
  · subst hj
    by_cases hd : isDue n = true
    · simp [hd, RedisState.ZScore, RedisState.Set, RedisState.SAdd, RedisState.ZAdd,
        kvGet_kvSet_self]
    · simp [hd, RedisState.ZScore, RedisState.Set, RedisState.SAdd]
  · simp only [if_neg hj]
    split_ifs <;>
      simp [RedisState.ZScore, RedisState.Set, RedisState.SAdd, RedisState.ZAdd,
        kvGet_kvSet_other _ _ hj]

theorem GetByID_Delete (id : String) (s : RedisState) (j : String) :
    GetByID (Delete id s) j = if j = id then none else GetByID s j := by
  by_cases hj : j = id
  · subst hj
    simp [Delete, GetByID, RedisState.Del, RedisState.SRem, RedisState.ZRem, kvGet_kvDel_self]
  · simp [Delete, GetByID, RedisState.Del, RedisState.SRem, RedisState.ZRem,
      kvGet_kvDel_other _ _ hj, hj]

theorem ZScore_Delete (id : String) (s : RedisState) (j : String) :
    (Delete id s).ZScore j = if j = id then none else s.ZScore j := by
  by_cases hj : j = id
  · subst hj
    simp [Delete, RedisState.ZScore, RedisState.Del, RedisState.SRem, RedisState.ZRem,
      kvGet_kvDel_self]
  · simp [Delete, RedisState.ZScore, RedisState.Del, RedisState.SRem, RedisState.ZRem,
      kvGet_kvDel_other _ _ hj, hj]

theorem ZScore_Update_other (now : Int) (id j : String) (hne : j ≠ id)
    (f : Notification → Notification) (s : RedisState) :
    (Update now id f s).2.ZScore j = s.ZScore j := by
  unfold Update
  cases hg : GetByID s id with
  | none => simp
  | some n =>
    simp only
    split_ifs <;>
      simp [RedisState.ZScore, RedisState.Set, RedisState.ZRem, RedisState.ZAdd,
        kvGet_kvSet_other _ _ hne, kvGet_kvDel_other _ _ hne]

theorem ZScore_Update_changed (now : Int) (id : String) (f : Notification → Notification)
    (s : RedisState) (n : Notification) (hg : GetByID s id = some n)
    (hch : n.Status ≠ (f n).Status) :
    (Update now id f s).2.ZScore id = dueKey { f n with UpdatedAt := now } := by
  unfold Update dueKey
  simp only [hg, ne_eq, hch, not_false_eq_true, if_true]
  split_ifs <;>
    simp [RedisState.ZScore, RedisState.Set, RedisState.ZRem, RedisState.ZAdd,
      kvGet_kvSet_self, kvGet_kvDel_self]

theorem ZScore_Update_same (now : Int) (id : String) (f : Notification → Notification)
    (s : RedisState) (n : Notification) (hg : GetByID s id = some n)
    (hsame : n.Status = (f n).Status) :
    (Update now id f s).2.ZScore id = s.ZScore id := by
  unfold Update
  simp [hg, hsame, RedisState.ZScore, RedisState.Set]

theorem Update_absent (now : Int) (id : String) (f : Notification → Notification)
    (s : RedisState) (hg : GetByID s id = none) : (Update now id f s).2 = s := by
  unfold Update
  simp [hg]

theorem dueKey_stamp (n : Notification) (now : Int) :
    dueKey { n with UpdatedAt := now } = dueKey n := rfl

theorem dueKey_isSome (n : Notification) : (dueKey n).isSome = isDue n := by
  unfold dueKey
  cases isDue n <;> rfl

theorem isDue_congr (a b : Notification) (h : a.Status = b.Status) : isDue a = isDue b := by
  simp [isDue, h]

theorem consistent_apply (op : StoreOp) (s : RedisState) (hs : s.Consistent)
    (hk : op.keepsID) : (op.apply s).Consistent := by
  intro j n hg
  cases op with
  | create m =>
    simp only [StoreOp.apply] at hg ⊢
    rw [GetByID_Create] at hg
    have hall : ∀ x, x ∈ (Create m s).all ↔ x = m.ID ∨ x ∈ s.all := by
      intro x
      unfold Create
      by_cases hmem : m.ID ∈ s.all
      · have hx : x = m.ID ∨ x ∈ s.all ↔ x ∈ s.all :=
          ⟨fun h => h.elim (fun e => e ▸ hmem) id, Or.inr⟩
        split_ifs <;> simp [RedisState.Set, RedisState.SAdd, RedisState.ZAdd, hmem, hx]
      · split_ifs <;> simp [RedisState.Set, RedisState.SAdd, RedisState.ZAdd, hmem]
    by_cases hj : j = m.ID
    · rw [if_pos hj] at hg
      have hn : n = m := (Option.some.inj hg).symm
      subst hn
      exact ⟨hj.symm, (hall j).mpr (Or.inl hj)⟩
    · rw [if_neg hj] at hg
      exact ⟨(hs j n hg).1, (hall j).mpr (Or.inr (hs j n hg).2)⟩
  | update now id f =>
    simp only [StoreOp.apply] at hg ⊢
    have hall : (Update now id f s).2.all = s.all := by
      unfold Update
      cases hg2 : GetByID s id with
      | none => rfl
      | some m =>
        simp only
        split_ifs <;> rfl
    rw [hall]
    by_cases hj : j = id
    · subst hj
      rw [GetByID_Update_self] at hg
      cases hg0 : GetByID s j with
      | none => rw [hg0] at hg; cases hg
      | some m =>
        rw [hg0] at hg
        have hn : n = { f m with UpdatedAt := now } := (Option.some.inj hg).symm
        subst hn
        have hkm : (f m).ID = m.ID := hk m
        exact ⟨by simpa [hkm] using (hs j m hg0).1, (hs j m hg0).2⟩
    · rw [GetByID_Update_other _ _ _ hj] at hg
      exact hs j n hg
  | delete id =>
    simp only [StoreOp.apply] at hg ⊢
    rw [GetByID_Delete] at hg
    by_cases hj : j = id
    · rw [if_pos hj] at hg; cases hg
    · rw [if_neg hj] at hg
      refine ⟨(hs j n hg).1, ?_⟩
      simp [Delete, RedisState.Del, RedisState.SRem, RedisState.ZRem, hj, (hs j n hg).2]

/-- Every database built from the empty one by calls that keep the `ID` field is
consistent. -/
theorem consistent_runOps (ops : List StoreOp) :
    ∀ s : RedisState, s.Consistent → (∀ op, op ∈ ops → op.keepsID) →
      (runOps ops s).Consistent := by
  induction ops with
  | nil => intro s hs _; exact hs
  | cons op rest ih =>
    intro s hs hk
    exact ih (op.apply s) (consistent_apply op s hs (hk op (List.mem_cons_self _ _)))
      (fun o ho => hk o (List.mem_cons_of_mem _ ho))

/-- Membership part of the invariant, for one call. -/
theorem member_step (op : StoreOp) (s : RedisState)
    (hinv : ∀ id, (s.ZScore id).isSome = ((GetByID s id).bind dueKey).isSome)
    (hfresh : op.fresh s) :
    ∀ id, ((op.apply s).ZScore id).isSome = ((GetByID (op.apply s) id).bind dueKey).isSome := by
  intro j
  cases op with
  | create n =>
    simp only [StoreOp.apply, GetByID_Create, ZScore_Create]
    by_cases hj : j = n.ID
    · subst hj
      simp only [if_true, Option.some_bind]
      by_cases hd : isDue n = true
      · simp [hd]
      · have hd2 : isDue n = false := by simpa using hd
        have hz := hinv n.ID
        have hf : GetByID s n.ID = none := hfresh
        rw [hf] at hz
        rw [if_neg hd, hz, dueKey_isSome, hd2]; rfl
    · simp only [if_neg hj]; exact hinv j
  | update now id f =>
    simp only [StoreOp.apply]
    by_cases hj : j = id
    · subst hj
      cases hg : GetByID s j with
      | none => rw [Update_absent _ _ _ _ hg, hinv j]
      | some n =>
        rw [GetByID_Update_self, hg]
        simp only [Option.map_some', Option.some_bind, dueKey_stamp]
        by_cases hch : n.Status = (f n).Status
        · rw [ZScore_Update_same _ _ _ _ _ hg hch, hinv j, hg]
          simp only [Option.some_bind, dueKey_isSome]
          exact isDue_congr _ _ hch
        · rw [ZScore_Update_changed _ _ _ _ _ hg hch, dueKey_stamp]
    · rw [ZScore_Update_other _ _ _ hj, GetByID_Update_other _ _ _ hj]; exact hinv j
  | delete id =>
    simp only [StoreOp.apply, GetByID_Delete, ZScore_Delete]
    by_cases hj : j = id
    · simp [hj]
    · simp only [if_neg hj]; exact hinv j

/-- Key part of the invariant, for one call. -/
theorem key_step (op : StoreOp) (s : RedisState)
    (hinv : ∀ id, s.ZScore id = (GetByID s id).bind dueKey)
    (hfresh : op.fresh s) (hstable : op.stable s) :
    ∀ id, (op.apply s).ZScore id = (GetByID (op.apply s) id).bind dueKey := by
  intro j
  cases op with
  | create n =>
    simp only [StoreOp.apply, GetByID_Create, ZScore_Create]
    by_cases hj : j = n.ID
    · subst hj
      simp only [if_true, Option.some_bind]
      by_cases hd : isDue n = true
      · simp [hd]
      · have hz := hinv n.ID
        have hf : GetByID s n.ID = none := hfresh
        rw [hf] at hz
        simp [hd, hz, dueKey]
    · simp only [if_neg hj]; exact hinv j
  | update now id f =>
    simp only [StoreOp.apply]
    by_cases hj : j = id
    · subst hj
      cases hg : GetByID s j with
      | none => rw [Update_absent _ _ _ _ hg, hinv j]
      | some n =>
        rw [GetByID_Update_self, hg]
        simp only [Option.map_some', Option.some_bind, dueKey_stamp]
        by_cases hch : n.Status = (f n).Status
        · rw [ZScore_Update_same _ _ _ _ _ hg hch, hinv j, hg]
          simp only [Option.some_bind]
          have hdc := isDue_congr _ _ hch
          unfold dueKey
          by_cases hd : isDue n = true
          · have hk := hstable n hg hd hch.symm
            rw [← hdc, hd, hk]
          · have hd2 : isDue n = false := by simpa using hd
            rw [← hdc, hd2]; rfl
        · rw [ZScore_Update_changed _ _ _ _ _ hg hch, dueKey_stamp]
    · rw [ZScore_Update_other _ _ _ hj, GetByID_Update_other _ _ _ hj]; exact hinv j
  | delete id =>
    simp only [StoreOp.apply, GetByID_Delete, ZScore_Delete]
    by_cases hj : j = id
    · simp [hj]
    · simp only [if_neg hj]; exact hinv j

theorem member_run (ops : List StoreOp) :
    ∀ s : RedisState, (∀ id, (s.ZScore id).isSome = ((GetByID s id).bind dueKey).isSome) →
      FreshCreates ops s →
      ∀ id, ((runOps ops s).ZScore id).isSome =
        ((GetByID (runOps ops s) id).bind dueKey).isSome := by
  induction ops with
  | nil => intro s hinv _; exact hinv
  | cons op rest ih =>
    intro s hinv hfresh
    exact ih (op.apply s) (member_step op s hinv hfresh.1) hfresh.2

theorem key_run (ops : List StoreOp) :
    ∀ s : RedisState, (∀ id, s.ZScore id = (GetByID s id).bind dueKey) →
      FreshCreates ops s → KeyStable ops s →
      ∀ id, (runOps ops s).ZScore id = (GetByID (runOps ops s) id).bind dueKey := by
  induction ops with
  | nil => intro s hinv _ _; exact hinv
  | cons op rest ih =>
    intro s hinv hfresh hstable
    exact ih (op.apply s) (key_step op s hinv hfresh.1 hstable.1) hfresh.2 hstable.2

theorem Update_pending_same (now : Int) (id : String) (f : Notification → Notification)
    (s : RedisState) (n : Notification) (hg : GetByID s id = some n)
    (hsame : (f n).Status = n.Status) :
    (Update now id f s).2.pending = s.pending := by
  unfold Update
  simp [hg, hsame, RedisState.Set]

theorem isDue_iff (n : Notification) :
    isDue n = true ↔ n.Status = StatusPending ∨ n.Status = StatusRetrying := by
  simp [isDue]

/-- C7, counterexample: after the creation of the pending sample record and an update that
moves its send time to 90 seconds without changing its status, the record is pending with
send time 90 seconds while its index key is still 30. -/
theorem due_index_stale_key_counterexample :
    ∃ n, GetByID (runOps staleKeyOps RedisState.empty) "n1" = some n ∧
      n.Status = StatusPending ∧ n.SendAt = 90 * Second ∧
      (runOps staleKeyOps RedisState.empty).ZScore "n1" = some 30 ∧
      (runOps staleKeyOps RedisState.empty).ZScore "n1" ≠ some (Unix n.SendAt) :=
  ⟨{ sampleRecord with SendAt := 90 * Second, UpdatedAt := 10 * Second },
    by decide, by decide, by decide, by decide, by decide⟩

/-- C7, amended: after any sequence of `Create`, `Update` and `Delete` calls from the empty
store in which no `Create` reuses a stored id, an id is in the due-index if and only if its
stored record is pending or retrying.  If moreover no `Update` changes the index timestamp
(in whole seconds) of a pending or retrying record while leaving its status unchanged, the
index key is the whole Unix seconds of the send time for a pending record and for a retrying
record without next retry, and of the next retry for a retrying record that has one.  An
`Update` that leaves the status unchanged leaves the due-index untouched. -/
theorem due_index_invariant (ops : List StoreOp)
    (hfresh : FreshCreates ops RedisState.empty) :
    (∀ id, ((runOps ops RedisState.empty).ZScore id).isSome = true ↔
      ∃ n, GetByID (runOps ops RedisState.empty) id = some n ∧
        (n.Status = StatusPending ∨ n.Status = StatusRetrying)) ∧
    (KeyStable ops RedisState.empty →
      ∀ id n, GetByID (runOps ops RedisState.empty) id = some n →
        (n.Status = StatusPending →
          (runOps ops RedisState.empty).ZScore id = some (Unix n.SendAt)) ∧
        (n.Status = StatusRetrying → ∀ t, n.NextRetry = some t →
          (runOps ops RedisState.empty).ZScore id = some (Unix t)) ∧
        (n.Status = StatusRetrying → n.NextRetry = none →
          (runOps ops RedisState.empty).ZScore id = some (Unix n.SendAt))) ∧
    (∀ (now : Int) (id : String) (f : Notification → Notification) (s : RedisState)
        (n : Notification), GetByID s id = some n → (f n).Status = n.Status →
      (Update now id f s).2.pending = s.pending) := by
  have h0 : ∀ id, RedisState.empty.ZScore id = (GetByID RedisState.empty id).bind dueKey :=
    fun _ => rfl
  refine ⟨?_, ?_, Update_pending_same⟩
  · intro id
    have h := member_run ops RedisState.empty (fun j => by rw [h0 j]) hfresh id
    rw [h]
    cases hg : GetByID (runOps ops RedisState.empty) id with
    | none => simp
    | some n => simp [dueKey_isSome, isDue_iff]
  · intro hstable id n hg
    have h := key_run ops RedisState.empty h0 hfresh hstable id
    rw [hg] at h
    simp only [Option.some_bind] at h
    refine ⟨?_, ?_, ?_⟩
    · intro hs
      rw [h]; simp [dueKey, isDue, sendTime, hs]
    · intro hs t ht
      rw [h]; simp [dueKey, isDue, sendTime, hs, ht]
    · intro hs ht
      rw [h]; simp [dueKey, isDue, sendTime, hs, ht]

/-- Witness of the amended C7: after the sample record is created and then marked retrying
with a next retry, it is indexed by the whole seconds of that next retry. -/
theorem due_index_invariant_witness :
    (runOps retryOps RedisState.empty).ZScore "n1" = some 95 :=
  ((due_index_invariant retryOps ⟨rfl, trivial, trivial⟩).2.1
      ⟨trivial, (fun n hg _ hs => by
          have hn : n = sampleRecord := (Option.some.inj hg).symm
          subst hn
          cases hs), trivial⟩
      "n1"
      { sampleRecord with Status := StatusRetrying, NextRetry := some (95 * Second + 5),
                          UpdatedAt := 10 * Second }
      (by decide)).2.1 rfl (95 * Second + 5) rfl

/-! ## The due query -/

theorem mem_zsetInsert (x y : String × Int) (l : List (String × Int)) :
    y ∈ zsetInsert x l ↔ y = x ∨ y ∈ l := by
  induction l with
  | nil => simp [zsetInsert]
  | cons hd tl ih =>
    unfold zsetInsert
    split_ifs
    · simp
    · simp only [List.mem_cons, ih]
      constructor
      · rintro (h | h | h)
        · exact Or.inr (Or.inl h)
        · exact Or.inl h
        · exact Or.inr (Or.inr h)
      · rintro (h | h | h)
        · exact Or.inr (Or.inl h)
        · exact Or.inl h
        · exact Or.inr (Or.inr h)

theorem mem_zsetSort (y : String × Int) (l : List (String × Int)) :
    y ∈ zsetSort l ↔ y ∈ l := by
  induction l with
  | nil => simp [zsetSort]
  | cons hd tl ih => simp [zsetSort, mem_zsetInsert, ih]

theorem mem_ZRangeByScore (s : RedisState) (lo hi : Int) (id : String) :
    id ∈ s.ZRangeByScore lo hi ↔ ∃ k, (id, k) ∈ s.pending ∧ lo ≤ k ∧ k ≤ hi := by
  simp only [RedisState.ZRangeByScore, List.mem_map, mem_zsetSort, List.mem_filter,
    Bool.and_eq_true, decide_eq_true_eq]
  constructor
  · rintro ⟨⟨a, k⟩, ⟨hm, h1, h2⟩, rfl⟩
    exact ⟨k, hm, h1, h2⟩
  · rintro ⟨k, hm, h1, h2⟩
    exact ⟨(id, k), ⟨hm, h1, h2⟩, rfl⟩

theorem mem_of_kvGet {β : Type} (k : String) (v : β) (l : List (String × β))
    (h : kvGet k l = some v) : (k, v) ∈ l := by
  induction l with
  | nil => simp [kvGet] at h
  | cons hd tl ih =>
    obtain ⟨k1, v1⟩ := hd
    by_cases hk : k1 = k
    · simp only [kvGet, if_pos hk] at h
      have hv : v1 = v := Option.some.inj h
      subst hk; subst hv
      exact List.mem_cons_self _ _
    · simp only [kvGet, if_neg hk] at h
      exact List.mem_cons_of_mem _ (ih h)

theorem kvGet_of_mem {β : Type} (k : String) (v : β) (l : List (String × β))
    (hnd : (l.map (fun p => p.1)).Nodup) (h : (k, v) ∈ l) : kvGet k l = some v := by
  induction l with
  | nil => cases h
  | cons hd tl ih =>
    obtain ⟨k1, v1⟩ := hd
    simp only [List.map_cons, List.nodup_cons] at hnd
    rcases List.mem_cons.mp h with heq | htl
    · have h1 : k1 = k := (congrArg Prod.fst heq).symm
      have h2 : v1 = v := (congrArg Prod.snd heq).symm
      simp [kvGet, h1, h2]
    · have hne : ¬ k1 = k := by
        intro e
        apply hnd.1
        rw [e]
        exact List.mem_map.mpr ⟨(k, v), htl, rfl⟩
      simp only [kvGet, if_neg hne]
      exact ih hnd.2 htl

theorem keys_kvDel {β : Type} (k : String) (l : List (String × β)) :
    (kvDel k l).map (fun p => p.1) =
      (l.map (fun p => p.1)).filter (fun x => decide (x ≠ k)) := by
  induction l with
  | nil => rfl
  | cons hd tl ih =>
    obtain ⟨k1, v1⟩ := hd
    by_cases hk : k1 = k
    · simp [kvDel, hk, ih]
    · simp [kvDel, hk, ih]

theorem nodup_kvDel {β : Type} (k : String) (l : List (String × β))
    (hnd : (l.map (fun p => p.1)).Nodup) : ((kvDel k l).map (fun p => p.1)).Nodup := by
  rw [keys_kvDel]
  exact hnd.filter _

theorem nodup_kvSet {β : Type} (k : String) (v : β) (l : List (String × β))
    (hnd : (l.map (fun p => p.1)).Nodup) : ((kvSet k v l).map (fun p => p.1)).Nodup := by
  simp only [kvSet, List.map_cons, List.nodup_cons]
  refine ⟨?_, nodup_kvDel k l hnd⟩
  rw [keys_kvDel]
  simp [List.mem_filter]

theorem uniqueMembers_apply (op : StoreOp) (s : RedisState) (hu : s.UniqueMembers) :
    (op.apply s).UniqueMembers := by
  unfold RedisState.UniqueMembers at hu ⊢
  cases op with
  | create n =>
    simp only [StoreOp.apply, Create]
    split_ifs
    · exact nodup_kvSet _ _ _ hu
    · exact hu
  | update now id f =>
    simp only [StoreOp.apply, Update]
    cases hg : GetByID s id with
    | none => exact hu
    | some m =>
      simp only
      split_ifs
      · exact nodup_kvSet _ _ _ (nodup_kvDel _ _ hu)
      · exact nodup_kvDel _ _ hu
      · exact hu
  | delete id =>
    simp only [StoreOp.apply, Delete]
    exact nodup_kvDel _ _ hu

/-- Every database built from the empty one holds each member of the due-index once. -/
theorem uniqueMembers_runOps (ops : List StoreOp) :
    ∀ s : RedisState, s.UniqueMembers → (runOps ops s).UniqueMembers := by
  induction ops with
  | nil => intro s hs; exact hs
  | cons op rest ih => intro s hs; exact ih (op.apply s) (uniqueMembers_apply op s hs)

theorem Unix_mono (t now : Int) (h : t ≤ now) : Unix t ≤ Unix now := by
  unfold Unix Second
  omega

theorem Unix_nonneg (t : Int) (h : 0 ≤ t) : 0 ≤ Unix t := by
  unfold Unix Second
  omega

theorem Unix_le_iff (t now : Int) : Unix t ≤ Unix now ↔ t < (Unix now + 1) * Second := by
  unfold Unix Second
  constructor <;> intro h <;> omega

/-- C11: on a due-index that holds each member once, `GetPendingNotifications` returns
exactly the stored records whose index score lies in the queried range, from 0 to `now` in
whole Unix seconds.  Every returned record has an index score at most `now` in whole seconds
(so a timestamp before the end of the current second when the score is that of its
timestamp), and every stored record indexed by the whole seconds of a timestamp that is not
negative and at most `now` is returned. -/
theorem GetPendingNotifications_exact (now : Int) (s : RedisState) (hu : s.UniqueMembers) :
    (∀ n, n ∈ GetPendingNotifications now s ↔
      ∃ id k, s.ZScore id = some k ∧ 0 ≤ k ∧ k ≤ Unix now ∧ GetByID s id = some n) ∧
    (∀ n, n ∈ GetPendingNotifications now s →
      ∃ id k, GetByID s id = some n ∧ s.ZScore id = some k ∧ k ≤ Unix now ∧
        (k = Unix (sendTime n) → sendTime n < (Unix now + 1) * Second)) ∧
    (∀ id n, GetByID s id = some n → s.ZScore id = some (Unix (sendTime n)) →
      0 ≤ sendTime n → sendTime n ≤ now → n ∈ GetPendingNotifications now s) := by
  have hiff : ∀ n, n ∈ GetPendingNotifications now s ↔
      ∃ id k, s.ZScore id = some k ∧ 0 ≤ k ∧ k ≤ Unix now ∧ GetByID s id = some n := by
    intro n
    simp only [GetPendingNotifications, List.mem_filterMap, mem_ZRangeByScore]
    constructor
    · rintro ⟨id, ⟨k, hm, h0, h1⟩, hg⟩
      exact ⟨id, k, kvGet_of_mem id k s.pending hu hm, h0, h1, hg⟩
    · rintro ⟨id, k, hz, h0, h1, hg⟩
      exact ⟨id, ⟨k, mem_of_kvGet id k s.pending hz, h0, h1⟩, hg⟩
  refine ⟨hiff, ?_, ?_⟩
  · intro n hn
    obtain ⟨id, k, hz, _, h1, hg⟩ := (hiff n).mp hn
    refine ⟨id, k, hg, hz, h1, ?_⟩
    intro hk
    rw [hk] at h1
    exact (Unix_le_iff _ _).mp h1
  · intro id n hg hz h0 hle
    exact (hiff n).mpr ⟨id, _, hz, Unix_nonneg _ h0, Unix_mono _ _ hle, hg⟩

/-- Witness of C11: ten seconds after the sample record is due, the query returns it. -/
theorem GetPendingNotifications_exact_witness :
    sampleRecord ∈ GetPendingNotifications (40 * Second) sampleStore :=
  (GetPendingNotifications_exact (40 * Second) sampleStore
      (show (sampleStore.pending.map (fun p => p.1)).Nodup by decide)).2.2
    "n1" sampleRecord (by decide) (by decide) (by decide) (by decide)

/-! ## Redelivery and the reschedule branch -/

theorem retryLoop_send_calls (send : Channel) (stored : Notification) (fuel : Nat) :
    ∀ (c : SendState) (last : Option Error),
      (retryLoop (sendClosure send stored) fuel c last).1.calls ≤ c.calls + fuel := by
  induction fuel with
  | zero => intro c last; simp [retryLoop]
  | succ k ih =>
    intro c last
    rw [retryLoop]
    cases hs : send c.calls stored with
    | true => simp [sendClosure, hs]
    | false =>
      simp only [sendClosure, hs, Bool.not_false, if_true]
      have h := ih { success := false, calls := c.calls + 1 } (some Error.sendError)
      simp only at h
      omega

theorem retryLoop_send_outcome (send : Channel) (stored : Notification) (fuel : Nat) :
    ∀ (c : SendState) (last : Option Error),
      ((retryLoop (sendClosure send stored) fuel c last).2 = none ∧
        (retryLoop (sendClosure send stored) fuel c last).1.success = true) ∨
      ((retryLoop (sendClosure send stored) fuel c last).2 ≠ none ∧
        (retryLoop (sendClosure send stored) fuel c last).1.success = false ∧ 0 < fuel) ∨
      (fuel = 0 ∧ retryLoop (sendClosure send stored) fuel c last = (c, last)) := by
  induction fuel with
  | zero => intro c last; right; right; exact ⟨rfl, rfl⟩
  | succ k ih =>
    intro c last
    rw [retryLoop]
    cases hs : send c.calls stored with
    | true => left; simp [sendClosure, hs]
    | false =>
      simp only [sendClosure, hs, Bool.not_false, if_true]
      rcases ih { success := false, calls := c.calls + 1 } (some Error.sendError) with
        h | h | ⟨h0, h⟩
      · exact Or.inl h
      · exact Or.inr (Or.inl ⟨h.1, h.2.1, Nat.succ_pos _⟩)
      · right; left
        rw [h]
        exact ⟨by simp, rfl, Nat.succ_pos _⟩

theorem innerLoop_calls_le (send : Channel) (stored : Notification) :
    (innerLoop send stored).1.calls ≤ (wrap64 (stored.MaxRetries - stored.Attempts)).toNat := by
  have h := retryLoop_send_calls send stored
    (wrap64 (stored.MaxRetries - stored.Attempts)).toNat { success := false, calls := 0 } none
  simpa [innerLoop, DoContext] using h

theorem innerLoop_outcome (send : Channel) (stored : Notification) :
    ((innerLoop send stored).2 = none ∧ (innerLoop send stored).1.success = true) ∨
    ((innerLoop send stored).2 ≠ none ∧ (innerLoop send stored).1.success = false ∧
      0 < wrap64 (stored.MaxRetries - stored.Attempts)) ∨
    (wrap64 (stored.MaxRetries - stored.Attempts) ≤ 0 ∧
      innerLoop send stored = ({ success := false, calls := 0 }, none)) := by
  rcases retryLoop_send_outcome send stored
      (wrap64 (stored.MaxRetries - stored.Attempts)).toNat
      { success := false, calls := 0 } none with h | h | ⟨h0, _⟩
  · exact Or.inl h
  · exact Or.inr (Or.inl ⟨h.1, h.2.1, by omega⟩)
  · exact Or.inr (Or.inr ⟨by omega, innerLoop_exhausted send stored (by omega)⟩)

theorem budget_exhausted_of_no_wrap (stored : Notification)
    (hno : stored.MaxRetries - stored.Attempts < 2 ^ 63)
    (hb : wrap64 (stored.MaxRetries - stored.Attempts) ≤ 0) :
    stored.MaxRetries ≤ stored.Attempts := by
  by_contra hc
  have hpos := wrap64_pos_of_pos (stored.MaxRetries - stored.Attempts) (by omega) hno
  omega

theorem finalize_innerLoop (send : Channel) (stored m : Notification) (now : Int)
    (hno : stored.MaxRetries - stored.Attempts < 2 ^ 63)
    (ha : m.Attempts = stored.Attempts) (hm : m.MaxRetries = stored.MaxRetries) :
    (finalize (innerLoop send stored).1.success (innerLoop send stored).2 now m).2 = [] ∧
    ((finalize (innerLoop send stored).1.success (innerLoop send stored).2 now m).1.Status
        = StatusSent ∨
      (finalize (innerLoop send stored).1.success (innerLoop send stored).2 now m).1.Status
        = StatusFailed) ∧
    (finalize (innerLoop send stored).1.success (innerLoop send stored).2 now m).1.NextRetry
      = none := by
  rcases innerLoop_outcome send stored with ⟨_, hs⟩ | ⟨he, hs, _⟩ | ⟨hb, hl⟩
  · rw [hs, finalize_success]
    exact ⟨rfl, Or.inl rfl, rfl⟩
  · obtain ⟨e, he2⟩ := Option.ne_none_iff_exists'.mp he
    rw [hs, he2, finalize_error]
    exact ⟨rfl, Or.inr rfl, rfl⟩
  · have hx := budget_exhausted_of_no_wrap stored hno hb
    rw [hl, finalize_exhausted none now m (by rw [ha, hm]; omega)]
    exact ⟨rfl, Or.inr rfl, rfl⟩

theorem cycle_refused (send : Channel) (clk : Clock) (m stored : Notification)
    (st : RedisState) (hready : After m.SendAt clk.atCheck = false)
    (hget : GetByID st m.ID = some stored) (hnc : stored.Status ≠ StatusCancelled)
    (hno : stored.MaxRetries - stored.Attempts < 2 ^ 63)
    (hfail : ∀ k, send k stored = false) :
    ∃ n, GetByID (handleMessage send clk (some m) st).store m.ID = some n ∧
      n.Status = StatusFailed ∧ n.NextRetry = none ∧ n.Attempts = stored.Attempts + 1 := by
  obtain ⟨_, hrec, _, _, _⟩ := handleMessage_cycle send clk m stored st hready hget hnc
  refine ⟨_, hrec, ?_⟩
  by_cases hb : 0 < wrap64 (stored.MaxRetries - stored.Attempts)
  · rw [innerLoop_fail send stored hfail hb]
    simp [finalize_error, inFlight_Attempts]
  · have hx := budget_exhausted_of_no_wrap stored hno (by omega)
    rw [innerLoop_exhausted send stored (by omega)]
    rw [finalize_exhausted none _ _ (by
      rw [inFlight_Attempts, inFlight_MaxRetries]; omega)]
    simp [inFlight_Attempts]

/-- Where the 64-bit budget `MaxRetries - Attempts` does not wrap around below, a run that
makes a delivery attempt ends with `Attempts <= MaxRetries`, and a run on a record with
`Attempts >= MaxRetries` makes no delivery attempt. -/
theorem resend_bound_without_wrap (send : Channel) (clk : Clock)
    (m stored : Notification) (st : RedisState)
    (hget : GetByID st m.ID = some stored) (hnc : stored.Status ≠ StatusCancelled)
    (hno : -(2 ^ 63) ≤ stored.MaxRetries - stored.Attempts) :
    (1 ≤ (handleMessage send clk (some m) st).deliveryAttempts →
      ∃ n, GetByID (handleMessage send clk (some m) st).store m.ID = some n ∧
        n.Attempts ≤ n.MaxRetries) ∧
    (stored.MaxRetries ≤ stored.Attempts →
      (handleMessage send clk (some m) st).deliveryAttempts = 0) ∧
    (handleMessage send clk (some m) st).deliveryAttempts ≤
      (wrap64 (stored.MaxRetries - stored.Attempts)).toNat := by
  have hwrap : stored.MaxRetries ≤ stored.Attempts →
      wrap64 (stored.MaxRetries - stored.Attempts) ≤ 0 := by
    intro h
    rw [wrap64_eq_self _ hno (by norm_num; omega)]
    omega
  by_cases hready : After m.SendAt clk.atCheck = true
  · have h0 : (handleMessage send clk (some m) st).deliveryAttempts = 0 := by
      simp [handleMessage, hready]
    rw [h0]
    exact ⟨fun h => absurd h (by decide), fun _ => rfl, Nat.zero_le _⟩
  · have hready2 : After m.SendAt clk.atCheck = false := by simpa using hready
    obtain ⟨_, hrec, hatt, _, _⟩ := handleMessage_cycle send clk m stored st hready2 hget hnc
    have hle := innerLoop_calls_le send stored
    rw [hatt]
    refine ⟨?_, ?_, hle⟩
    · intro h1
      refine ⟨_, hrec, ?_⟩
      simp only [finalize_Attempts, finalize_MaxRetries, inFlight_Attempts,
        inFlight_MaxRetries]
      by_contra hc
      have := hwrap (by omega)
      omega
    · intro hb
      rw [innerLoop_exhausted send stored (hwrap hb)]

theorem overflowStore_record : GetByID overflowStore "n1" = some overflowSent := by
  have hready : After overflowRecord.SendAt sampleClock.atCheck = false := by decide
  have hfirst : GetByID (handleMessage sendNotification sampleClock (some overflowRecord)
      (Create overflowRecord RedisState.empty)).store overflowRecord.ID =
      some { overflowRecord with Status := StatusFailed, Attempts := 1,
                                 UpdatedAt := sampleClock.atStamp } := by decide
  obtain ⟨_, hrec, _, _, _⟩ := handleMessage_cycle sendNotification sampleClock overflowRecord
    { overflowRecord with Status := StatusFailed, Attempts := 1,
                          UpdatedAt := sampleClock.atStamp }
    (handleMessage sendNotification sampleClock (some overflowRecord)
      (Create overflowRecord RedisState.empty)).store hready hfirst (by decide)
  have hloop := innerLoop_ok sendNotification
    { overflowRecord with Status := StatusFailed, Attempts := 1,
                          UpdatedAt := sampleClock.atStamp } 0
    (by decide) (fun j hj => absurd hj (Nat.not_lt_zero j)) (by decide)
  rw [hloop] at hrec
  have hstore : overflowStore =
      (handleMessage sendNotification sampleClock (some overflowRecord)
        (handleMessage sendNotification sampleClock (some overflowRecord)
          (Create overflowRecord RedisState.empty)).store).store := by
    simp only [overflowStore, runCycles, List.replicate, List.foldl]
  rw [hstore]
  exact hrec

/-- C12, at the failing input: the record created with `max_retries` equal to the smallest
64-bit integer is sent with two attempts after two deliveries through the channel of the
source, so `Attempts >= MaxRetries`.  At the next due redelivery the budget
`MaxRetries - Attempts` wraps around to 9223372036854775806, the delivery channel is called,
and the record ends with three attempts, above `MaxRetries`. -/
theorem resend_at_wrapped_budget :
    GetByID overflowStore "n1" = some overflowSent ∧
    overflowSent.Status = StatusSent ∧
    overflowSent.MaxRetries ≤ overflowSent.Attempts ∧
    overflowRecord.SendAt ≤ sampleClock.atCheck ∧
    wrap64 (overflowSent.MaxRetries - overflowSent.Attempts) = 9223372036854775806 ∧
    1 ≤ (handleMessage sendNotification sampleClock (some overflowRecord)
      overflowStore).deliveryAttempts ∧
    ∃ n, GetByID (handleMessage sendNotification sampleClock (some overflowRecord)
        overflowStore).store "n1" = some n ∧
      n.Attempts = 3 ∧ ¬ (n.Attempts ≤ n.MaxRetries) := by
  have hready : After overflowRecord.SendAt sampleClock.atCheck = false := by decide
  have hnc : overflowSent.Status ≠ StatusCancelled := by decide
  have hb : wrap64 (overflowSent.MaxRetries - overflowSent.Attempts)
      = 9223372036854775806 := by decide
  have hfail : ∀ k, sendNotification k overflowSent = false := fun _ => rfl
  obtain ⟨_, hrec, hatt, _, _⟩ := handleMessage_cycle sendNotification sampleClock
    overflowRecord overflowSent overflowStore hready overflowStore_record hnc
  have hloop := innerLoop_fail sendNotification overflowSent hfail (by rw [hb]; decide)
  rw [hloop, hb] at hatt
  rw [hloop, finalize_error] at hrec
  refine ⟨overflowStore_record, by decide, by decide, by decide, hb, ?_, _, hrec, ?_, ?_⟩
  · rw [hatt]; decide
  · decide
  · decide

/-- C13: terminal states are not protected.  The sample record, sent after two deliveries
through the channel of the source, is marked failed with one more attempt by the next due
redelivery; and in general a due message for a stored record in status sent always reaches
the final update (one more attempt is counted), which marks the record failed whenever the
channel refuses it on every attempt (the counters being those of a record of the service:
attempts not negative, `MaxRetries` a 64-bit integer). -/
theorem sent_overwritten_by_redelivery :
    (∃ stored n, GetByID twiceDelivered "n1" = some stored ∧
      stored.Status = StatusSent ∧ sampleRecord.SendAt ≤ sampleClock.atCheck ∧
      GetByID (handleMessage sendNotification sampleClock (some sampleRecord)
        twiceDelivered).store "n1" = some n ∧
      n.Status = StatusFailed ∧ n.Attempts = stored.Attempts + 1) ∧
    (∀ (send : Channel) (clk : Clock) (m stored : Notification) (st : RedisState),
      m.SendAt ≤ clk.atCheck → GetByID st m.ID = some stored →
      stored.Status = StatusSent →
      ∃ n, GetByID (handleMessage send clk (some m) st).store m.ID = some n ∧
        n.Attempts = stored.Attempts + 1 ∧
        ((∀ k, send k stored = false) → 0 ≤ stored.Attempts →
          stored.MaxRetries < 2 ^ 63 → n.Status = StatusFailed)) := by
  constructor
  · exact ⟨{ sampleRecord with Status := StatusSent, Attempts := 2,
                               UpdatedAt := sampleClock.atStamp },
      { sampleRecord with Status := StatusFailed, Attempts := 3,
                          UpdatedAt := sampleClock.atStamp },
      by decide, by decide, by decide, by decide, by decide, by decide⟩
  · intro send clk m stored st hdue hget hsent
    have hnc : stored.Status ≠ StatusCancelled := by rw [hsent]; decide
    have hready : After m.SendAt clk.atCheck = false := by
      simp only [After, decide_eq_false_iff_not]; exact not_lt.mpr hdue
    obtain ⟨_, hrec, _, _, _⟩ := handleMessage_cycle send clk m stored st hready hget hnc
    refine ⟨_, hrec, by simp [finalize_Attempts, inFlight_Attempts], ?_⟩
    intro hfail h0 hmax
    obtain ⟨n, hn, hs, _, _⟩ :=
      cycle_refused send clk m stored st hready hget hnc (by omega) hfail
    rw [hrec] at hn
    rw [Option.some.inj hn]
    exact hs

/-- Witness of C13: the general part at the third delivery of the sample message. -/
theorem sent_overwritten_by_redelivery_witness :
    ∃ n, GetByID (handleMessage sendNotification sampleClock (some sampleRecord)
        twiceDelivered).store sampleRecord.ID = some n ∧
      n.Attempts = (2 : Int) + 1 ∧
      ((∀ k, sendNotification k
          { sampleRecord with Status := StatusSent, Attempts := 2,
                              UpdatedAt := sampleClock.atStamp } = false) →
        (0 : Int) ≤ 2 → (3 : Int) < 2 ^ 63 → n.Status = StatusFailed) :=
  sent_overwritten_by_redelivery.2 sendNotification sampleClock sampleRecord
    { sampleRecord with Status := StatusSent, Attempts := 2, UpdatedAt := sampleClock.atStamp }
    twiceDelivered (by decide) (by decide) rfl

theorem counted_empty : RedisState.empty.Counted := by
  intro id n h
  simp [GetByID, RedisState.empty, kvGet] at h

theorem counted_Create (n : Notification) (s : RedisState) (hs : s.Counted)
    (h0 : 0 ≤ n.Attempts) (hmax : n.MaxRetries < 2 ^ 63) : (Create n s).Counted := by
  intro j r hg
  rw [GetByID_Create] at hg
  by_cases hj : j = n.ID
  · rw [if_pos hj] at hg
    rw [← Option.some.inj hg]
    exact ⟨h0, hmax⟩
  · rw [if_neg hj] at hg
    exact hs j r hg

/-- A run of `handleMessage` keeps the counters of the stored records those of records of
the service. -/
theorem counted_handleMessage (send : Channel) (clk : Clock)
    (delivery : Option Notification) (st : RedisState) (hs : st.Counted) :
    (handleMessage send clk delivery st).store.Counted := by
  rcases handleMessage_store_cases send clk delivery st with h | ⟨m, sm, hd, hready, hg, hnc⟩
  · rw [h]; exact hs
  · subst hd
    obtain ⟨_, hrec, _, _, hother⟩ := handleMessage_cycle send clk m sm st hready hg hnc
    intro j r hj
    by_cases hid : j = m.ID
    · subst hid
      rw [hrec] at hj
      rw [← Option.some.inj hj]
      simp only [finalize_Attempts, finalize_MaxRetries, inFlight_Attempts,
        inFlight_MaxRetries]
      have := hs m.ID sm hg
      exact ⟨by omega, this.2⟩
    · rw [hother j hid] at hj
      exact hs j r hj

/-- C14: with `retry.DoContext` modelled as at most `Attempts` calls, no error on the first
success, the last error when every call failed, and no call and no error when
`Attempts <= 0`, and on a store of a sequential run (every record with attempts not negative
and `MaxRetries` a 64-bit integer, as creation by the service and `handleMessage` keep it),
no run of `handleMessage` hands a record to `PublishDelayed`, and every run that reaches the
final update (due message, record stored and not cancelled) leaves the record sent or failed
with no next retry, hence never retrying with a next retry. -/
theorem reschedule_unreachable (send : Channel) (clk : Clock)
    (delivery : Option Notification) (st : RedisState) (hcount : st.Counted) :
    (handleMessage send clk delivery st).scheduled = [] ∧
    (∀ m stored, delivery = some m → m.SendAt ≤ clk.atCheck →
      GetByID st m.ID = some stored → stored.Status ≠ StatusCancelled →
      ∃ n, GetByID (handleMessage send clk delivery st).store m.ID = some n ∧
        (n.Status = StatusSent ∨ n.Status = StatusFailed) ∧ n.NextRetry = none) := by
  have hno : ∀ id n, GetByID st id = some n → n.MaxRetries - n.Attempts < 2 ^ 63 := by
    intro id n h
    have := hcount id n h
    omega
  constructor
  · cases delivery with
    | none => rfl
    | some m =>
      by_cases hready : After m.SendAt clk.atCheck = true
      · simp [handleMessage, hready]
      · have hready2 : After m.SendAt clk.atCheck = false := by simpa using hready
        cases hget : GetByID st m.ID with
        | none => simp [handleMessage, hready2, hget]
        | some stored =>
          by_cases hc : stored.Status = StatusCancelled
          · simp [handleMessage, hready2, hget, hc]
          · obtain ⟨_, _, _, hsch, _⟩ :=
              handleMessage_cycle send clk m stored st hready2 hget hc
            rw [hsch, (finalize_innerLoop send stored (inFlight clk stored) clk.atBackoff
              (hno _ _ hget) (inFlight_Attempts clk stored)
              (inFlight_MaxRetries clk stored)).1]
            rfl
  · intro m stored hd hdue hget hnc
    subst hd
    have hready : After m.SendAt clk.atCheck = false := by
      simp only [After, decide_eq_false_iff_not]; exact not_lt.mpr hdue
    obtain ⟨_, hrec, _, _, _⟩ := handleMessage_cycle send clk m stored st hready hget hnc
    have hf := finalize_innerLoop send stored (inFlight clk stored) clk.atBackoff
      (hno _ _ hget) (inFlight_Attempts clk stored) (inFlight_MaxRetries clk stored)
    exact ⟨_, hrec, hf.2.1, hf.2.2⟩

/-- Witness of C14: the failing cycle of the sample record, with two attempts left, ends
failed with no next retry. -/
theorem reschedule_unreachable_witness :
    ∃ n, GetByID (handleMessage failingChannel sampleClock (some sampleRecord)
        sampleStore).store sampleRecord.ID = some n ∧
      (n.Status = StatusSent ∨ n.Status = StatusFailed) ∧ n.NextRetry = none :=
  (reschedule_unreachable failingChannel sampleClock (some sampleRecord) sampleStore
    (counted_Create sampleRecord RedisState.empty counted_empty (by decide) (by decide))).2
    sampleRecord sampleRecord rfl (by decide) (by decide) (by decide)

end Notifier
